import Mathlib

set_option maxRecDepth 8000

/-
Verification of the scout extraction pipeline core against its specification.

The pipeline's pure core (chunking, triage, validation, upsert and diff
driver logic) is shallowly embedded: Python strings become `List Char`,
Python values that travel through the extraction payloads become `PyVal`,
code that can raise becomes `Except Unit`, and the relational store becomes
explicit record lists.  Python builtin behaviour (strip/lower/splitlines,
truthiness, `in`, `str()`) is modelled for the ASCII fragment the pipeline
manipulates; the few places where the model narrows builtin behaviour are
noted at the definition site.
-/

namespace Scout

/-- Python strings are modelled as lists of characters. -/
abbrev Str := List Char

/-- Shorthand turning a Lean string literal into the `Str` model. -/
def S (s : String) : Str := s.toList

/-- Whitespace characters recognised by the model of Python's `str.strip`,
`str.split` and `\s`: space, tab, newline, carriage return, vertical tab and
form feed (the ASCII whitespace set). -/
def isSpace (c : Char) : Bool :=
  c = ' ' || c = '\t' || c = '\n' || c = '\r' || c = '\x0b' || c = '\x0c'

/-- Model of Python `str.strip()`: drop whitespace from both ends. -/
def strip (s : Str) : Str :=
  ((s.dropWhile isSpace).reverse.dropWhile isSpace).reverse

/-- Model of Python `str.lower()` (ASCII case folding). -/
def lower (s : Str) : Str := s.map Char.toLower

/-- Model of Python `str.upper()` (ASCII case folding). -/
def upper (s : Str) : Str := s.map Char.toUpper

/-- Helper for `splitlines`: accumulates the current line (reversed) and
splits at line breaks.  A trailing break does not open a final empty line,
matching Python `str.splitlines()`. -/
def splitlinesGo : Str → Str → List Str
  | [], acc => if acc = [] then [] else [acc.reverse]
  | '\r' :: '\n' :: rest, acc => acc.reverse :: splitlinesGo rest []
  | '\r' :: rest, acc => acc.reverse :: splitlinesGo rest []
  | '\n' :: rest, acc => acc.reverse :: splitlinesGo rest []
  | c :: rest, acc => splitlinesGo rest (c :: acc)

/-- Model of Python `str.splitlines()` restricted to the line breaks the
pipeline's inputs use: `\n`, `\r` and `\r\n`. -/
def splitlines (s : Str) : List Str := splitlinesGo s []

/-- Model of Python `sep.join(parts)`. -/
def joinSep (sep : Str) : List Str → Str
  | [] => []
  | [x] => x
  | x :: y :: xs => x ++ sep ++ joinSep sep (y :: xs)

/-- Helper for `pySplitWs`: accumulates the current word (reversed) and
closes it at whitespace. -/
def splitWsGo : Str → Str → List Str
  | [], acc => if acc = [] then [] else [acc.reverse]
  | c :: rest, acc =>
    if isSpace c then
      if acc = [] then splitWsGo rest [] else acc.reverse :: splitWsGo rest []
    else splitWsGo rest (c :: acc)

/-- Model of Python `str.split()` with no arguments: split on whitespace
runs, discarding empty words. -/
def pySplitWs (s : Str) : List Str := splitWsGo s []

end Scout

namespace Scout

/- ------------------------------------------------------------------
Chunker, from src/pipeline/chunk.py.
------------------------------------------------------------------ -/

/-- One chunk object produced by `chunk_text`
(`{"idx": i, "heading": h, "text": c}` in the source). -/
structure Chunk where
  idx : Nat
  heading : Str
  text : Str
deriving DecidableEq

/-- Paragraph accumulation loop of `chunk_text` (chunk.py lines 15-26):
lines are stripped, blank lines close the current paragraph buffer, and the
buffered lines are joined with single spaces. -/
def parasGo : List Str → List Str → List Str
  | [], buf => if buf = [] then [] else [strip (joinSep [' '] buf.reverse)]
  | line :: rest, buf =>
    let ln := strip line
    if ln = [] then
      if buf = [] then parasGo rest buf
      else strip (joinSep [' '] buf.reverse) :: parasGo rest []
    else parasGo rest (ln :: buf)

/-- Paragraphs of a text: `parasGo` over its lines. -/
def parasOf (text : Str) : List Str := parasGo (splitlines text) []

/-- Hard-split loop of `chunk_text` (chunk.py lines 56-61), fuelled so that
it is structurally recursive (and therefore computes by kernel reduction):
successive `max_chars` slices of an oversized paragraph, each stripped,
slices whose strip is empty being skipped. -/
def hardSplitF : Nat → Nat → Str → List Str
  | 0, _, _ => []
  | _ + 1, _, [] => []
  | fuel + 1, maxc, c :: rest =>
    let part := strip ((c :: rest).take maxc)
    (if part = [] then [] else [part]) ++ hardSplitF fuel maxc ((c :: rest).drop maxc)

/-- Hard split of one oversized paragraph.  For `1 ≤ maxc` a fuel of
`p.length` always suffices (each round drops at least one character); the
source's `while` loop diverges for `max_chars = 0`, a parameter value the
pipeline never uses. -/
def hardSplit (maxc : Nat) (p : Str) : List Str := hardSplitF p.length maxc p

/-- The `"\n\n"` separator used when flushing a chunk. -/
def nl2 : Str := ['\n', '\n']

/-- The `flush()` closure of `chunk_text` (chunk.py lines 36-44): join the
current paragraph buffer with blank lines, strip, and append when
non-empty. -/
def flushChunks (chunks : List Str) (cur : List Str) : List Str :=
  if cur = [] then chunks
  else
    let chunk := strip (joinSep nl2 cur)
    if chunk = [] then chunks else chunks ++ [chunk]

/-- The paragraph-packing loop of `chunk_text` (chunk.py lines 46-68).
State is `(chunks, cur, cur_len)`; returns the state at loop exit (the
final `flush()` is done by the caller, as in the source, where `break`
leaves the loop before it).  -/
def chunkLoop (maxc maxn : Nat) : List Str → List Str → List Str → Nat → List Str × List Str × Nat
  | [], chunks, cur, curLen => (chunks, cur, curLen)
  | p0 :: rest, chunks, cur, curLen =>
    let p := strip p0
    if p = [] then chunkLoop maxc maxn rest chunks cur curLen
    else
      let st1 :=
        if maxc < curLen + p.length + 2 ∧ cur ≠ [] then (flushChunks chunks cur, ([] : List Str), 0)
        else (chunks, cur, curLen)
      if maxc < p.length then
        chunkLoop maxc maxn rest (st1.1 ++ hardSplit maxc p) st1.2.1 st1.2.2
      else
        if maxn ≤ st1.1.length then (st1.1, st1.2.1 ++ [p], st1.2.2 + p.length + 2)
        else chunkLoop maxc maxn rest st1.1 (st1.2.1 ++ [p]) (st1.2.2 + p.length + 2)

/-- Heading heuristic of `chunk_text` (chunk.py lines 79-83): the first
line when it is short (at most 80 characters), else `"BODY"`. -/
def headingOf (c : Str) : Str :=
  let firstLine :=
    match splitlines c with
    | [] => ([] : Str)
    | l :: _ => strip l
  if 0 < firstLine.length ∧ firstLine.length ≤ 80 then firstLine else S "BODY"

/-- Model of `chunk_text` (src/pipeline/chunk.py).  `maxc` and `maxn` are
the `max_chars` (default 2400) and `max_chunks_per_source` (default 3)
parameters. -/
def chunk_text (cleanText : Str) (maxc maxn : Nat) : List Chunk :=
  let text := strip cleanText
  if text.length < 200 then []
  else
    let paras0 := parasOf text
    let paras := if paras0 = [] then [text] else paras0
    let st := chunkLoop maxc maxn paras [] [] 0
    let chunks1 := flushChunks st.1 st.2.1
    let chunks := if chunks1 = [] then [text.take maxc] else chunks1
    ((chunks.take maxn).enum).map (fun ic => { idx := ic.1 + 1, heading := headingOf ic.2, text := ic.2 })

/- ------------------------------------------------------------------
Basic facts about `strip` and `hardSplit`.
------------------------------------------------------------------ -/

lemma length_strip_le (s : Str) : (strip s).length ≤ s.length := by
  have h1 : s.dropWhile isSpace <:+ s := List.dropWhile_suffix isSpace
  have h2 : (s.dropWhile isSpace).reverse.dropWhile isSpace <:+ (s.dropWhile isSpace).reverse :=
    List.dropWhile_suffix isSpace
  have h1l := h1.length_le
  have h2l := h2.length_le
  simp only [strip, List.length_reverse] at *
  omega

lemma dropWhile_eq_self_of_head (s : Str)
    (h : ∀ c, s.head? = some c → isSpace c = false) : s.dropWhile isSpace = s := by
  cases s with
  | nil => rfl
  | cons c t => simp [List.dropWhile_cons, h c rfl]

lemma strip_eq_self_of_no_ws {s : Str} (hws : ∀ c ∈ s, isSpace c = false) :
    strip s = s := by
  have h1 : s.dropWhile isSpace = s :=
    dropWhile_eq_self_of_head s (fun c hc => hws c (List.mem_of_mem_head? hc))
  have h2 : s.reverse.dropWhile isSpace = s.reverse :=
    dropWhile_eq_self_of_head s.reverse
      (fun c hc => hws c (List.mem_reverse.mp (List.mem_of_mem_head? hc)))
  simp [strip, h1, h2]

lemma hardSplitF_nil (fuel maxc : Nat) : hardSplitF fuel maxc [] = [] := by
  cases fuel <;> rfl

lemma hardSplitF_fuel (maxc : Nat) (hm : 1 ≤ maxc) :
    ∀ fuel1 : Nat, ∀ fuel2 : Nat, ∀ p : Str, p.length ≤ fuel1 → p.length ≤ fuel2 →
      hardSplitF fuel1 maxc p = hardSplitF fuel2 maxc p := by
  intro fuel1
  induction fuel1 with
  | zero =>
    intro fuel2 p h1 _
    have : p = [] := List.eq_nil_of_length_eq_zero (Nat.le_zero.mp h1)
    subst this
    rw [hardSplitF_nil, hardSplitF_nil]
  | succ n ih =>
    intro fuel2 p h1 h2
    cases p with
    | nil => rw [hardSplitF_nil, hardSplitF_nil]
    | cons c rest =>
      cases fuel2 with
      | zero => simp at h2
      | succ m =>
        simp only [hardSplitF]
        rw [ih m ((c :: rest).drop maxc) (by simp at h1 ⊢; omega) (by simp at h2 ⊢; omega)]

lemma hardSplit_cons (maxc : Nat) (hm : 1 ≤ maxc) (c : Char) (rest : Str) :
    hardSplit maxc (c :: rest) =
      (if strip ((c :: rest).take maxc) = [] then [] else [strip ((c :: rest).take maxc)]) ++
        hardSplit maxc ((c :: rest).drop maxc) := by
  show hardSplitF (c :: rest).length maxc (c :: rest) = _
  rw [show (c :: rest).length = rest.length + 1 from rfl]
  simp only [hardSplitF]
  rw [hardSplitF_fuel maxc hm rest.length ((c :: rest).drop maxc).length ((c :: rest).drop maxc)
    (by simp; omega) le_rfl]
  rfl

lemma hardSplit_mem_length (maxc : Nat) (p : Str) :
    ∀ s ∈ hardSplit maxc p, s.length ≤ maxc := by
  have hgen : ∀ fuel (p : Str), ∀ s ∈ hardSplitF fuel maxc p, s.length ≤ maxc := by
    intro fuel
    induction fuel with
    | zero =>
      intro p s hs
      simp [hardSplitF] at hs
    | succ n ih =>
      intro p s hs
      cases p with
      | nil => simp [hardSplitF_nil] at hs
      | cons c rest =>
        simp only [hardSplitF] at hs
        rcases List.mem_append.mp hs with h | h
        · have hlen : s.length ≤ ((c :: rest).take maxc).length := by
            rcases Decidable.em (strip ((c :: rest).take maxc) = []) with he | he
            · simp [he] at h
            · simp [he] at h
              subst h
              exact length_strip_le _
          calc s.length ≤ ((c :: rest).take maxc).length := hlen
            _ ≤ maxc := by simpa using List.length_take_le maxc (c :: rest)
        · exact ih ((c :: rest).drop maxc) s h
  exact hgen p.length p

lemma hardSplit_spec (maxc : Nat) (hm : 1 ≤ maxc) :
    ∀ p : Str, (∀ c ∈ p, isSpace c = false) → p ≠ [] →
      (hardSplit maxc p).length = (p.length - 1) / maxc + 1 ∧
      (hardSplit maxc p).flatten = p := by
  have hgen : ∀ n (p : Str), p.length ≤ n → (∀ c ∈ p, isSpace c = false) → p ≠ [] →
      (hardSplit maxc p).length = (p.length - 1) / maxc + 1 ∧
      (hardSplit maxc p).flatten = p := by
    intro n
    induction n with
    | zero =>
      intro p hp _ hne
      exact absurd (List.eq_nil_of_length_eq_zero (Nat.le_zero.mp hp)) hne
    | succ n ih =>
      intro p hp hws hne
      obtain ⟨c, rest, rfl⟩ := List.exists_cons_of_ne_nil hne
      obtain ⟨m, rfl⟩ : ∃ m, maxc = m + 1 := ⟨maxc - 1, by omega⟩
      have htake : (c :: rest).take (m + 1) = c :: rest.take m := rfl
      have hstrip : strip ((c :: rest).take (m + 1)) = (c :: rest).take (m + 1) :=
        strip_eq_self_of_no_ws (fun x hx => hws x (List.take_subset _ _ hx))
      have htkne : (c :: rest).take (m + 1) ≠ [] := by simp [htake]
      rw [hardSplit_cons (m + 1) hm, hstrip, if_neg htkne]
      rcases Decidable.em ((c :: rest).drop (m + 1) = []) with hzero | hpos
      · have hlen : (c :: rest).length ≤ m + 1 := by
          simpa using List.drop_eq_nil_iff.mp hzero
        constructor
        · rw [hzero]
          have h1 : (c :: rest).length - 1 < m + 1 := by
            simp only [List.length_cons] at hlen ⊢
            omega
          rw [Nat.div_eq_of_lt h1]
          simp [hardSplit, hardSplitF_nil]
        · rw [hzero]
          simp [hardSplit, hardSplitF_nil, List.take_of_length_le hlen]
      · have hlt : m + 1 < (c :: rest).length := by
          by_contra hcon
          exact hpos (List.drop_eq_nil_iff.mpr (by omega))
        have ihres := ih ((c :: rest).drop (m + 1))
          (by simp at hp ⊢; omega)
          (fun x hx => hws x (List.drop_subset _ _ hx))
          hpos
        constructor
        · have hlen2 : ((c :: rest).drop (m + 1)).length = (c :: rest).length - (m + 1) := by
            simp
          rw [List.length_append, ihres.1, hlen2]
          have hsub : (m + 1) ≤ (c :: rest).length - 1 := by
            simp only [List.length_cons] at hlt ⊢
            omega
          rw [Nat.div_eq_sub_div (by omega) hsub]
          have heq : (c :: rest).length - 1 - (m + 1) = (c :: rest).length - (m + 1) - 1 := by
            omega
          rw [heq]
          simp only [List.length_singleton]
          ring
        · rw [List.singleton_append, List.flatten_cons, ihres.2, List.take_append_drop]
  intro p
  exact hgen p.length p le_rfl

lemma hardSplit_ne_nil (maxc : Nat) (hm : 1 ≤ maxc) (p : Str)
    (hws : ∀ c ∈ p, isSpace c = false) (hne : p ≠ []) : hardSplit maxc p ≠ [] := by
  intro h
  have := (hardSplit_spec maxc hm p hws hne).2
  rw [h] at this
  exact hne (by simpa using this.symm)

lemma chunkLoop_single (maxc maxn : Nat) (p : Str) (hstr : strip p = p)
    (hne : p ≠ []) (hbig : maxc < p.length) :
    chunkLoop maxc maxn [p] [] [] 0 = (hardSplit maxc p, [], 0) := by
  simp only [chunkLoop, hstr]
  rw [if_neg hne]
  simp only [ne_eq, not_true_eq_false, and_false, if_false]
  rw [if_pos hbig]
  simp [chunkLoop]

/- ------------------------------------------------------------------
C6: chunking coverage.
------------------------------------------------------------------ -/

/-- C6, counterexample to the claim as stated: an input of exactly 200
characters, all spaces, has length at least 200 yet `chunk_text` returns
zero chunks, because the 200-character minimum is checked on the
whitespace-stripped text (chunk.py lines 10-12). -/
theorem chunk_text_len200_whitespace_counterexample :
    (List.replicate 200 ' ' : Str).length = 200 ∧
      chunk_text (List.replicate 200 ' ') 2400 3 = [] := by
  constructor
  · simp
  · decide

/-- C6 (amended): for every input whose whitespace-stripped text has length
at least 200, `chunk_text` returns at least one chunk (for any positive
chunk budget `maxn`); for every input of length below 200 it returns
exactly zero chunks. -/
theorem chunk_text_coverage_stripped (s : Str) (maxc maxn : Nat) (hn : 1 ≤ maxn) :
    (200 ≤ (strip s).length → 1 ≤ (chunk_text s maxc maxn).length) ∧
      (s.length < 200 → chunk_text s maxc maxn = []) := by
  constructor
  · intro h200
    simp only [chunk_text]
    rw [if_neg (by omega)]
    simp only [List.length_map, List.enum_length, List.length_take]
    rw [le_min_iff]
    refine ⟨hn, ?_⟩
    rw [Nat.one_le_iff_ne_zero, Ne, List.length_eq_zero]
    split_ifs <;> simp_all
  · intro hshort
    have := length_strip_le s
    simp only [chunk_text]
    rw [if_pos (by omega)]

/-- Witness for C6: a 200-character non-blank text yields a chunk, and a
short text yields none. -/
theorem chunk_text_coverage_stripped_witness :
    (1 ≤ (chunk_text (List.replicate 200 'a') 2400 3).length) ∧
      chunk_text (S "too short") 2400 3 = [] :=
  ⟨(chunk_text_coverage_stripped (List.replicate 200 'a') 2400 3 (by decide)).1 (by decide),
   (chunk_text_coverage_stripped (S "too short") 2400 3 (by decide)).2 (by decide)⟩

/- ------------------------------------------------------------------
C7: hard-split property.
------------------------------------------------------------------ -/

/-- C7, counterexample to the claim as stated: a single paragraph of 250
identical letters with `max_chars = 50` is hard-split into
`ceil(250/50) = 5` pieces, but `chunk_text` returns only 3 chunks — the
output is capped at `max_chunks_per_source` (chunk.py line 78), so pieces
beyond the cap are dropped. -/
theorem chunk_text_hard_split_cap_counterexample :
    parasOf (strip (List.replicate 250 'a')) = [List.replicate 250 'a'] ∧
      (250 + 50 - 1) / 50 = 5 ∧
      (chunk_text (List.replicate 250 'a') 50 3).length = 3 := by
  refine ⟨by decide, by decide, by decide⟩

/-- C7 (amended): for a text forming a single whitespace-free paragraph
`p` with `maxc < p.length` (and stripped length at least 200), the
paragraph is hard-split into `ceil(p.length/maxc)` pieces, each of length
at most `maxc`, which concatenate back to `p` (nothing dropped by the
split itself); the returned chunks are the first `maxn` of these pieces. -/
theorem chunk_text_hard_split_pieces (t p : Str) (maxc maxn : Nat) (hm : 1 ≤ maxc)
    (h200 : 200 ≤ (strip t).length) (hp : parasOf (strip t) = [p])
    (hbig : maxc < p.length) (hws : ∀ c ∈ p, isSpace c = false) :
    (chunk_text t maxc maxn).map Chunk.text = (hardSplit maxc p).take maxn ∧
      (hardSplit maxc p).length = (p.length + maxc - 1) / maxc ∧
      (∀ s ∈ hardSplit maxc p, s.length ≤ maxc) ∧
      (hardSplit maxc p).flatten = p := by
  have hstr : strip p = p := strip_eq_self_of_no_ws hws
  have hne : p ≠ [] := by
    intro h
    rw [h] at hbig
    exact absurd hbig (by simp)
  have hspec := hardSplit_spec maxc hm p hws hne
  have hhs : hardSplit maxc p ≠ [] := hardSplit_ne_nil maxc hm p hws hne
  refine ⟨?_, ?_, hardSplit_mem_length maxc p, hspec.2⟩
  · simp only [chunk_text]
    rw [if_neg (by omega), hp]
    have h1 : (if ([p] : List Str) = [] then [strip t] else [p]) = [p] := by simp
    rw [h1, chunkLoop_single maxc maxn p hstr hne hbig]
    dsimp only
    have h2 : flushChunks (hardSplit maxc p) [] = hardSplit maxc p := by
      simp [flushChunks]
    rw [h2, if_neg hhs, List.map_map]
    have h3 : (Chunk.text ∘ fun ic : Nat × Str =>
        ({ idx := ic.1 + 1, heading := headingOf ic.2, text := ic.2 } : Chunk)) = Prod.snd := by
      funext ic
      rfl
    rw [h3, List.enum_map_snd]
  · have h1 : p.length + maxc - 1 = (p.length - 1) + maxc := by omega
    rw [hspec.1, h1, Nat.add_div_right _ (by omega)]

/-- Witness for C7 (amended) at a concrete single-paragraph input. -/
theorem chunk_text_hard_split_pieces_witness :
    (chunk_text (List.replicate 250 'a') 50 3).map Chunk.text =
        (hardSplit 50 (List.replicate 250 'a')).take 3 ∧
      (hardSplit 50 (List.replicate 250 'a')).length = (250 + 50 - 1) / 50 ∧
      (∀ s ∈ hardSplit 50 (List.replicate 250 'a'), s.length ≤ 50) ∧
      (hardSplit 50 (List.replicate 250 'a')).flatten = List.replicate 250 'a' := by
  have h := chunk_text_hard_split_pieces (List.replicate 250 'a') (List.replicate 250 'a')
    50 3 (by decide) (by decide) (by decide) (by decide) (by decide)
  simpa using h


/- ------------------------------------------------------------------
Python values.  Extraction payloads are JSON-like dictionaries; the
candidates inside them are arbitrary values.  `PyVal` models the values
the pipeline's payloads can carry (floating point numbers are outside the
embedding; no claim depends on float arithmetic).  Code that can raise is
modelled in `Except Unit`.
------------------------------------------------------------------ -/

inductive PyVal where
  | none : PyVal
  | bool : Bool → PyVal
  | int : Int → PyVal
  | str : Str → PyVal
  | list : List PyVal → PyVal
  | dict : List (Str × PyVal) → PyVal

mutual
def pyDecEq : (a b : PyVal) → Decidable (a = b)
  | .none, .none => isTrue rfl
  | .none, .bool _ => isFalse nofun
  | .none, .int _ => isFalse nofun
  | .none, .str _ => isFalse nofun
  | .none, .list _ => isFalse nofun
  | .none, .dict _ => isFalse nofun
  | .bool _, .none => isFalse nofun
  | .bool a, .bool b =>
    match decEq a b with
    | isTrue h => isTrue (by rw [h])
    | isFalse h => isFalse (fun he => h (by injection he))
  | .bool _, .int _ => isFalse nofun
  | .bool _, .str _ => isFalse nofun
  | .bool _, .list _ => isFalse nofun
  | .bool _, .dict _ => isFalse nofun
  | .int _, .none => isFalse nofun
  | .int _, .bool _ => isFalse nofun
  | .int a, .int b =>
    match decEq a b with
    | isTrue h => isTrue (by rw [h])
    | isFalse h => isFalse (fun he => h (by injection he))
  | .int _, .str _ => isFalse nofun
  | .int _, .list _ => isFalse nofun
  | .int _, .dict _ => isFalse nofun
  | .str _, .none => isFalse nofun
  | .str _, .bool _ => isFalse nofun
  | .str _, .int _ => isFalse nofun
  | .str a, .str b =>
    match decEq a b with
    | isTrue h => isTrue (by rw [h])
    | isFalse h => isFalse (fun he => h (by injection he))
  | .str _, .list _ => isFalse nofun
  | .str _, .dict _ => isFalse nofun
  | .list _, .none => isFalse nofun
  | .list _, .bool _ => isFalse nofun
  | .list _, .int _ => isFalse nofun
  | .list _, .str _ => isFalse nofun
  | .list a, .list b =>
    match pyDecEqList a b with
    | isTrue h => isTrue (by rw [h])
    | isFalse h => isFalse (fun he => h (by injection he))
  | .list _, .dict _ => isFalse nofun
  | .dict _, .none => isFalse nofun
  | .dict _, .bool _ => isFalse nofun
  | .dict _, .int _ => isFalse nofun
  | .dict _, .str _ => isFalse nofun
  | .dict _, .list _ => isFalse nofun
  | .dict a, .dict b =>
    match pyDecEqDict a b with
    | isTrue h => isTrue (by rw [h])
    | isFalse h => isFalse (fun he => h (by injection he))
def pyDecEqList : (a b : List PyVal) → Decidable (a = b)
  | [], [] => isTrue rfl
  | [], _ :: _ => isFalse nofun
  | _ :: _, [] => isFalse nofun
  | a :: as, b :: bs =>
    match pyDecEq a b, pyDecEqList as bs with
    | isTrue h1, isTrue h2 => isTrue (by rw [h1, h2])
    | isFalse h1, _ => isFalse (fun he => h1 (by injection he))
    | _, isFalse h2 => isFalse (fun he => h2 (by injection he))
def pyDecEqDict : (a b : List (Str × PyVal)) → Decidable (a = b)
  | [], [] => isTrue rfl
  | [], _ :: _ => isFalse nofun
  | _ :: _, [] => isFalse nofun
  | (k1, v1) :: as, (k2, v2) :: bs =>
    match decEq k1 k2, pyDecEq v1 v2, pyDecEqDict as bs with
    | isTrue h1, isTrue h2, isTrue h3 => isTrue (by rw [h1, h2, h3])
    | isFalse h1, _, _ =>
      isFalse (fun he => by
        injection he with hh ht
        injection hh with hk hv
        exact h1 hk)
    | _, isFalse h2, _ =>
      isFalse (fun he => by
        injection he with hh ht
        injection hh with hk hv
        exact h2 hv)
    | _, _, isFalse h3 => isFalse (fun he => h3 (by injection he))
end

instance : DecidableEq PyVal := pyDecEq

/-- Python truthiness: `None`, `False`, `0`, and empty containers are
falsy, everything else truthy. -/
def pyTruthy : PyVal → Bool
  | .none => false
  | .bool b => b
  | .int n => decide (n ≠ 0)
  | .str s => decide (s ≠ [])
  | .list xs => decide (xs ≠ [])
  | .dict fs => decide (fs ≠ [])

/-- Python `a or b`: the first operand when truthy, else the second. -/
def pyOr (a b : PyVal) : PyVal := if pyTruthy a then a else b

/-- First-match lookup in a dictionary's field list (well-formed Python
dictionaries have unique keys). -/
def pyLookup : List (Str × PyVal) → Str → Option PyVal
  | [], _ => Option.none
  | (k, v) :: fs, key => if k = key then some v else pyLookup fs key

/-- Python `d.get(key)`: `None` when absent; raises (`AttributeError`) when
the receiver is not a dictionary. -/
def pyGet : PyVal → Str → Except Unit PyVal
  | .dict fs, key => .ok ((pyLookup fs key).getD .none)
  | _, _ => .error ()

/-- Python `d.get(key, default)`. -/
def pyGetD : PyVal → Str → PyVal → Except Unit PyVal
  | .dict fs, key, dflt => .ok ((pyLookup fs key).getD dflt)
  | _, _, _ => .error ()

/-- Python `len(v)`: defined for strings, lists and dictionaries; raises
(`TypeError`) otherwise. -/
def pyLen : PyVal → Except Unit Nat
  | .str s => .ok s.length
  | .list xs => .ok xs.length
  | .dict fs => .ok fs.length
  | _ => .error ()

/-- Python iteration `for x in v`: strings yield their characters as
one-character strings, lists their elements, dictionaries their keys;
anything else raises (`TypeError`). -/
def pyIter : PyVal → Except Unit (List PyVal)
  | .str s => .ok (s.map (fun c => PyVal.str [c]))
  | .list xs => .ok xs
  | .dict fs => .ok (fs.map (fun kv => PyVal.str kv.1))
  | _ => .error ()

/-- Python `v.strip()`: a string method; raises (`AttributeError`) on
non-strings. -/
def pyStripM : PyVal → Except Unit Str
  | .str s => .ok (strip s)
  | _ => .error ()

/-- Python `v not in s` for a string `s`: the left operand must itself be
a string, otherwise `in` raises (`TypeError`). -/
def pyNotInStr : PyVal → Str → Except Unit Bool
  | .str x, s => .ok (decide (¬ (x <:+: s)))
  | _, _ => .error ()

/-- Decimal digits of a natural number (model of Python `str` on a
non-negative integer). -/
def natToStr (n : Nat) : Str := Nat.toDigits 10 n

/-- Model of Python `str(i)` for an integer. -/
def intToStr (n : Int) : Str :=
  if n < 0 then '-' :: natToStr n.natAbs else natToStr n.toNat

/-- Escaping of one character inside a Python string repr, for quote
character `q` (common escapes only; the pipeline's payload strings contain
no other non-printable characters). -/
def reprQuoteChar (q : Char) (c : Char) : Str :=
  if c = '\\' then ['\\', '\\']
  else if c = q then ['\\', q]
  else if c = '\n' then ['\\', 'n']
  else if c = '\r' then ['\\', 'r']
  else if c = '\t' then ['\\', 't']
  else [c]

/-- Model of Python `repr` on a string: single quotes unless the string
contains a single quote and no double quote. -/
def strPyRepr (s : Str) : Str :=
  let q : Char := if '\x27' ∈ s ∧ ¬ ('\x22' ∈ s) then '\x22' else '\x27'
  [q] ++ (s.map (reprQuoteChar q)).flatten ++ [q]

mutual
/-- Model of Python `repr(v)`. -/
def pyRepr : PyVal → Str
  | .none => S "None"
  | .bool true => S "True"
  | .bool false => S "False"
  | .int n => intToStr n
  | .str s => strPyRepr s
  | .list xs => ['['] ++ joinSep (S ", ") (pyReprList xs) ++ [']']
  | .dict fs => ['\x7b'] ++ joinSep (S ", ") (pyReprDict fs) ++ ['\x7d']
def pyReprList : List PyVal → List Str
  | [] => []
  | x :: xs => pyRepr x :: pyReprList xs
def pyReprDict : List (Str × PyVal) → List Str
  | [] => []
  | (k, v) :: fs => (strPyRepr k ++ S ": " ++ pyRepr v) :: pyReprDict fs
end

/-- Model of Python `str(v)`: strings are returned as-is, everything else
through `repr`-style printing (which for `None`, booleans and integers is
exactly Python's `str`). -/
def pyStr : PyVal → Str
  | .str s => s
  | v => pyRepr v

/- ------------------------------------------------------------------
Validator, from src/pipeline/validate.py.
------------------------------------------------------------------ -/

/-- The fixed event kinds (validate.py line 4). -/
def EVENT_TYPES : List Str :=
  [S "funding", S "partnership", S "product_launch", S "expansion", S "acquisition",
   S "milestone", S "other"]

/-- The fixed funding round kinds (validate.py lines 5-6). -/
def ROUND_TYPES : List Str :=
  [S "pre_seed", S "seed", S "series_a", S "series_b", S "series_c", S "series_d",
   S "series_e", S "series_f", S "series_g", S "growth", S "venture_debt", S "grant",
   S "unknown"]

/-- The `_quote_in_text` helper (validate.py lines 11-14): false on empty
quote or empty text, otherwise exact (case-sensitive) substring test. -/
def _quote_in_text (quote text : Str) : Bool :=
  if quote = [] ∨ text = [] then false
  else decide (quote <:+: text)

/-- Processing of one person candidate (validate.py lines 36-51), up to
the enclosing `try`: `.ok none` means accept, `.ok (some r)` means reject
with reason `r`, `.error` means the body raised. -/
def personStep (chunkText : Str) (p : PyVal) : Except Unit (Option Str) :=
  match pyGet p (S "evidence_quote") with
  | .error e => .error e
  | .ok qv =>
    match pyStripM (pyOr qv (.str [])) with
    | .error e => .error e
    | .ok quote =>
      if _quote_in_text quote chunkText = false then .ok (some (S "person_quote_not_in_text"))
      else
        match pyGet p (S "linkedin_url") with
        | .error e => .error e
        | .ok li =>
          if pyTruthy li then
            match pyNotInStr li quote with
            | .error e => .error e
            | .ok b =>
              if b then .ok (some (S "person_linkedin_not_in_quote")) else .ok Option.none
          else .ok Option.none

/-- Processing of one event candidate (validate.py lines 58-73). -/
def eventStep (chunkText : Str) (e : PyVal) : Except Unit (Option Str) :=
  match pyGet e (S "type") with
  | .error ex => .error ex
  | .ok tv =>
    match pyStripM (pyOr tv (.str [])) with
    | .error ex => .error ex
    | .ok et =>
      match pyGet e (S "evidence_quote") with
      | .error ex => .error ex
      | .ok qv =>
        match pyStripM (pyOr qv (.str [])) with
        | .error ex => .error ex
        | .ok quote =>
          if et ∉ EVENT_TYPES then .ok (some (S "event_bad_type"))
          else if _quote_in_text quote chunkText = false then
            .ok (some (S "event_quote_not_in_text"))
          else .ok Option.none

/-- Processing of one funding-round candidate (validate.py lines 80-102). -/
def fundingStep (chunkText : Str) (fr : PyVal) : Except Unit (Option Str) :=
  match pyGet fr (S "round_type") with
  | .error ex => .error ex
  | .ok rv =>
    match pyStripM (pyOr rv (.str [])) with
    | .error ex => .error ex
    | .ok rt =>
      match pyGet fr (S "evidence_quote") with
      | .error ex => .error ex
      | .ok qv =>
        match pyStripM (pyOr qv (.str [])) with
        | .error ex => .error ex
        | .ok quote =>
          if rt ∉ ROUND_TYPES then .ok (some (S "funding_bad_round_type"))
          else if _quote_in_text quote chunkText = false then
            .ok (some (S "funding_quote_not_in_text"))
          else
            match pyGet fr (S "amount") with
            | .error ex => .error ex
            | .ok amt =>
              if amt ≠ PyVal.none ∧ ¬ (pyStr amt <:+: quote) then
                .ok (some (S "funding_amount_not_in_quote"))
              else .ok Option.none

/-- One `for` loop of the validator with its per-item `try/except`:
returns (accepted items, ok count, rejected count, reject reasons).  A
raising item contributes the section's `*_exception` tag. -/
def processItems (step : PyVal → Except Unit (Option Str)) (tag : Str) :
    List PyVal → List PyVal × Nat × Nat × List Str
  | [] => ([], 0, 0, [])
  | x :: xs =>
    let r := processItems step tag xs
    match step x with
    | .error _ => (r.1, r.2.1, r.2.2.1 + 1, tag :: r.2.2.2)
    | .ok (some reason) => (r.1, r.2.1, r.2.2.1 + 1, reason :: r.2.2.2)
    | .ok Option.none => (x :: r.1, r.2.1 + 1, r.2.2.1, r.2.2.2)

/-- The `accepted` payload built by the validator. -/
structure VAccepted where
  extractor_version : PyVal
  people : List PyVal
  events : List PyVal
  funding_rounds : List PyVal
deriving DecidableEq

/-- The `stats` record built by the validator. -/
structure VStats where
  people_in : Nat
  events_in : Nat
  funding_in : Nat
  people_ok : Nat
  events_ok : Nat
  funding_ok : Nat
  rejected : Nat
  reject_reasons : List Str
deriving DecidableEq

/-- The pure part of the validator, once the payload's fields have been
read: runs the three candidate loops and assembles `accepted` and
`stats`. -/
def validateCore (chunkText : Str) (exv : PyVal) (pin ein fin : Nat)
    (ps es fs : List PyVal) : VAccepted × VStats :=
  let pres := processItems (personStep chunkText) (S "person_exception") ps
  let eres := processItems (eventStep chunkText) (S "event_exception") es
  let fres := processItems (fundingStep chunkText) (S "funding_exception") fs
  ({ extractor_version := exv, people := pres.1, events := eres.1,
     funding_rounds := fres.1 },
   { people_in := pin, events_in := ein, funding_in := fin,
     people_ok := pres.2.1, events_ok := eres.2.1, funding_ok := fres.2.1,
     rejected := pres.2.2.1 + eres.2.2.1 + fres.2.2.1,
     reject_reasons := pres.2.2.2 ++ eres.2.2.2 ++ fres.2.2.2 })

/-- Model of `validate_extraction_for_chunk` (src/pipeline/validate.py).
Top-level failures (a non-dictionary payload, a non-sizeable field) raise,
as in the source; per-item failures are caught inside `processItems`. -/
def validate_extraction_for_chunk (extraction : PyVal) (chunkText : Str) :
    Except Unit (VAccepted × VStats) :=
  match pyGetD extraction (S "extractor_version") (.str (S "unknown")) with
  | .error e => .error e
  | .ok exv =>
  match pyGetD extraction (S "people") (.list []) with
  | .error e => .error e
  | .ok pv0 =>
  match pyLen (pyOr pv0 (.list [])) with
  | .error e => .error e
  | .ok pin =>
  match pyGetD extraction (S "events") (.list []) with
  | .error e => .error e
  | .ok ev0 =>
  match pyLen (pyOr ev0 (.list [])) with
  | .error e => .error e
  | .ok ein =>
  match pyGetD extraction (S "funding_rounds") (.list []) with
  | .error e => .error e
  | .ok fv0 =>
  match pyLen (pyOr fv0 (.list [])) with
  | .error e => .error e
  | .ok fin =>
  match pyGet extraction (S "people") with
  | .error e => .error e
  | .ok pv =>
  match pyIter (pyOr pv (.list [])) with
  | .error e => .error e
  | .ok ps =>
  match pyGet extraction (S "events") with
  | .error e => .error e
  | .ok ev =>
  match pyIter (pyOr ev (.list [])) with
  | .error e => .error e
  | .ok es =>
  match pyGet extraction (S "funding_rounds") with
  | .error e => .error e
  | .ok fv =>
  match pyIter (pyOr fv (.list [])) with
  | .error e => .error e
  | .ok fs => .ok (validateCore chunkText exv pin ein fin ps es fs)

/- ------------------------------------------------------------------
Validator facts and claims C1, C4, C8, C9.
------------------------------------------------------------------ -/

lemma pyOr_getD_get (v : PyVal) (k : Str) (x y : PyVal)
    (hx : pyGet v k = .ok x) (hy : pyGetD v k (.list []) = .ok y) :
    pyOr y (.list []) = pyOr x (.list []) := by
  cases v <;> simp [pyGet, pyGetD] at hx hy
  cases hlk : pyLookup _ k <;> rename_i fs <;> rw [hlk] at hx hy <;> simp at hx hy <;>
    subst hx <;> subst hy
  · rfl
  · rfl

lemma pyLen_iter_len (v : PyVal) (n : Nat) (l : List PyVal)
    (hn : pyLen v = .ok n) (hl : pyIter v = .ok l) : l.length = n := by
  cases v <;> simp [pyLen, pyIter] at hn hl <;> subst hn <;> simp [hl.symm]

lemma validate_ok_inv (e : PyVal) (c : Str) (r : VAccepted × VStats)
    (h : validate_extraction_for_chunk e c = .ok r) :
    ∃ exv ps es fs, r = validateCore c exv ps.length es.length fs.length ps es fs := by
  rw [validate_extraction_for_chunk] at h
  repeat (any_goals (split at h))
  all_goals try exact Except.noConfusion h
  rename_i x1 exv hexv x2 pv0 hpv0 x3 pin hpin x4 ev0 hev0 x5 ein hein x6 fv0 hfv0
    x7 fin hfin x8 pv hpv x9 ps hps x10 evv hev x11 es hes x12 fvv hfv x13 fs hfs
  rw [pyOr_getD_get e (S "people") pv pv0 hpv hpv0] at hpin
  rw [pyOr_getD_get e (S "events") evv ev0 hev hev0] at hein
  rw [pyOr_getD_get e (S "funding_rounds") fvv fv0 hfv hfv0] at hfin
  have hp := pyLen_iter_len _ _ _ hpin hps
  have he := pyLen_iter_len _ _ _ hein hes
  have hf := pyLen_iter_len _ _ _ hfin hfs
  injection h with h2
  exact ⟨exv, ps, es, fs, by rw [hp, he, hf, h2]⟩

lemma processItems_conserve (step : PyVal → Except Unit (Option Str)) (tag : Str) :
    ∀ xs : List PyVal,
      (processItems step tag xs).2.1 + (processItems step tag xs).2.2.1 = xs.length ∧
      (processItems step tag xs).2.2.2.length = (processItems step tag xs).2.2.1 := by
  intro xs
  induction xs with
  | nil => simp [processItems]
  | cons x xs ih =>
    have h1 := ih.1
    have h2 := ih.2
    simp only [processItems]
    cases hs : step x with
    | error e =>
      refine ⟨?_, ?_⟩ <;> simp only [List.length_cons] <;> omega
    | ok o =>
      cases o with
      | none => refine ⟨?_, ?_⟩ <;> simp only [List.length_cons] <;> omega
      | some r => refine ⟨?_, ?_⟩ <;> simp only [List.length_cons] <;> omega

lemma processItems_mem (step : PyVal → Except Unit (Option Str)) (tag : Str) :
    ∀ xs : List PyVal, ∀ x ∈ (processItems step tag xs).1,
      x ∈ xs ∧ step x = .ok Option.none := by
  intro xs
  induction xs with
  | nil => simp [processItems]
  | cons y ys ih =>
    intro x hx
    simp only [processItems] at hx
    cases hs : step y with
    | error e =>
      rw [hs] at hx
      have := ih x hx
      exact ⟨List.mem_cons_of_mem _ this.1, this.2⟩
    | ok o =>
      cases o with
      | some r =>
        rw [hs] at hx
        have := ih x hx
        exact ⟨List.mem_cons_of_mem _ this.1, this.2⟩
      | none =>
        rw [hs] at hx
        rcases List.mem_cons.mp hx with h | h
        · subst h
          exact ⟨List.mem_cons_self _ _, hs⟩
        · have := ih x h
          exact ⟨List.mem_cons_of_mem _ this.1, this.2⟩

lemma _quote_in_text_true (q t : Str) (h : _quote_in_text q t = true) :
    q ≠ [] ∧ q <:+: t := by
  rw [_quote_in_text] at h
  split at h
  · exact absurd h (by simp)
  · rename_i hcond
    push_neg at hcond
    exact ⟨hcond.1, of_decide_eq_true h⟩

lemma pyStripM_or_str (s : Str) : pyStripM (pyOr (.str s) (.str [])) = .ok (strip s) := by
  by_cases h : s = [] <;> simp [pyOr, pyTruthy, pyStripM, h]

lemma pyStripM_or_ok (v : PyVal) (q : Str)
    (h : pyStripM (pyOr v (.str [])) = .ok q) (hq : q ≠ []) :
    ∃ s, v = .str s ∧ strip s = q := by
  cases v with
  | str s =>
    rw [pyStripM_or_str] at h
    exact ⟨s, rfl, by injection h⟩
  | none => simp [pyOr, pyTruthy, pyStripM, strip] at h; exact absurd h hq
  | bool b =>
    cases b <;> simp [pyOr, pyTruthy, pyStripM, strip] at h
    exact absurd h hq
  | int n =>
    by_cases hn : n = 0 <;> simp [pyOr, pyTruthy, pyStripM, strip, hn] at h
    exact absurd h hq
  | list xs =>
    by_cases hx : xs = [] <;> simp [pyOr, pyTruthy, pyStripM, strip, hx] at h
    exact absurd h hq
  | dict fs =>
    by_cases hx : fs = [] <;> simp [pyOr, pyTruthy, pyStripM, strip, hx] at h
    exact absurd h hq

lemma bool_not_false_eq_true (b : Bool) (h : ¬ b = false) : b = true := by
  revert h
  cases b <;> simp

lemma personStep_accepts (c : Str) (p : PyVal) (h : personStep c p = .ok Option.none) :
    ∃ s, pyGet p (S "evidence_quote") = .ok (.str s) ∧ strip s ≠ [] ∧ strip s <:+: c := by
  cases hqv : pyGet p (S "evidence_quote") with
  | error e => simp [personStep, hqv] at h
  | ok qv =>
    cases hquote : pyStripM (pyOr qv (.str [])) with
    | error e => simp [personStep, hqv, hquote] at h
    | ok quote =>
      simp only [personStep, hqv, hquote] at h
      by_cases hqt : _quote_in_text quote c = false
      · rw [if_pos hqt] at h
        exact absurd h (by simp)
      · obtain ⟨hne, hinf⟩ := _quote_in_text_true quote c (bool_not_false_eq_true _ hqt)
        obtain ⟨s, rfl, hss⟩ := pyStripM_or_ok qv quote hquote hne
        exact ⟨s, rfl, hss ▸ hne, hss ▸ hinf⟩

lemma eventStep_accepts (c : Str) (ev : PyVal) (h : eventStep c ev = .ok Option.none) :
    ∃ s, pyGet ev (S "evidence_quote") = .ok (.str s) ∧ strip s ≠ [] ∧ strip s <:+: c := by
  cases htv : pyGet ev (S "type") with
  | error e => simp [eventStep, htv] at h
  | ok tv =>
    cases het : pyStripM (pyOr tv (.str [])) with
    | error e => simp [eventStep, htv, het] at h
    | ok et =>
      cases hqv : pyGet ev (S "evidence_quote") with
      | error e => simp [eventStep, htv, het, hqv] at h
      | ok qv =>
        cases hquote : pyStripM (pyOr qv (.str [])) with
        | error e => simp [eventStep, htv, het, hqv, hquote] at h
        | ok quote =>
          simp only [eventStep, htv, het, hqv, hquote] at h
          by_cases hm : et ∉ EVENT_TYPES
          · rw [if_pos hm] at h
            exact absurd h (by simp)
          · rw [if_neg hm] at h
            by_cases hqt : _quote_in_text quote c = false
            · rw [if_pos hqt] at h
              exact absurd h (by simp)
            · obtain ⟨hne, hinf⟩ := _quote_in_text_true quote c (bool_not_false_eq_true _ hqt)
              obtain ⟨s, rfl, hss⟩ := pyStripM_or_ok qv quote hquote hne
              exact ⟨s, rfl, hss ▸ hne, hss ▸ hinf⟩

lemma fundingStep_accepts (c : Str) (fr : PyVal) (h : fundingStep c fr = .ok Option.none) :
    ∃ s amt, pyGet fr (S "evidence_quote") = .ok (.str s) ∧ strip s ≠ [] ∧ strip s <:+: c ∧
      pyGet fr (S "amount") = .ok amt ∧
      (amt ≠ PyVal.none → pyStr amt <:+: strip s) := by
  cases hrv : pyGet fr (S "round_type") with
  | error e => simp [fundingStep, hrv] at h
  | ok rv =>
    cases hrt : pyStripM (pyOr rv (.str [])) with
    | error e => simp [fundingStep, hrv, hrt] at h
    | ok rt =>
      cases hqv : pyGet fr (S "evidence_quote") with
      | error e => simp [fundingStep, hrv, hrt, hqv] at h
      | ok qv =>
        cases hquote : pyStripM (pyOr qv (.str [])) with
        | error e => simp [fundingStep, hrv, hrt, hqv, hquote] at h
        | ok quote =>
          simp only [fundingStep, hrv, hrt, hqv, hquote] at h
          by_cases hm : rt ∉ ROUND_TYPES
          · rw [if_pos hm] at h
            exact absurd h (by simp)
          · rw [if_neg hm] at h
            by_cases hqt : _quote_in_text quote c = false
            · rw [if_pos hqt] at h
              exact absurd h (by simp)
            · rw [if_neg hqt] at h
              obtain ⟨hne, hinf⟩ := _quote_in_text_true quote c (bool_not_false_eq_true _ hqt)
              cases hamt : pyGet fr (S "amount") with
              | error e =>
                rw [hamt] at h
                exact Except.noConfusion h
              | ok amt =>
                rw [hamt] at h
                have h2 : (if amt ≠ PyVal.none ∧ ¬ (pyStr amt <:+: quote) then
                    Except.ok (some (S "funding_amount_not_in_quote"))
                    else Except.ok Option.none) = Except.ok (Option.none : Option Str) := h
                by_cases hbad : amt ≠ PyVal.none ∧ ¬ (pyStr amt <:+: quote)
                · rw [if_pos hbad] at h2
                  exact absurd h2 (by simp)
                · obtain ⟨s, rfl, hss⟩ := pyStripM_or_ok qv quote hquote hne
                  push_neg at hbad
                  refine ⟨s, amt, rfl, hss ▸ hne, hss ▸ hinf, rfl, ?_⟩
                  intro hamtne
                  rw [hss]
                  exact hbad hamtne

lemma strip_infix_self (s : Str) : strip s <:+: s := by
  have h1 : s.dropWhile isSpace <:+ s := List.dropWhile_suffix _
  have h2 : (s.dropWhile isSpace).reverse.dropWhile isSpace <:+ (s.dropWhile isSpace).reverse :=
    List.dropWhile_suffix _
  have h3 : strip s <+: s.dropWhile isSpace := by
    rw [strip]
    have hrp : ((s.dropWhile isSpace).reverse.dropWhile isSpace).reverse <+:
        (s.dropWhile isSpace).reverse.reverse := List.reverse_prefix.mpr h2
    simpa using hrp
  exact h3.isInfix.trans h1.isInfix

/-- C9: the validator's stats are conserved: ok counts plus rejections
equal the incoming counts, and there is exactly one reject reason per
rejection. -/
theorem validate_stats_conservation (e : PyVal) (c : Str) (a : VAccepted) (st : VStats)
    (h : validate_extraction_for_chunk e c = .ok (a, st)) :
    st.people_ok + st.events_ok + st.funding_ok + st.rejected =
      st.people_in + st.events_in + st.funding_in ∧
    st.reject_reasons.length = st.rejected := by
  obtain ⟨exv, ps, es, fs, hr⟩ := validate_ok_inv e c (a, st) h
  have hst : st = (validateCore c exv ps.length es.length fs.length ps es fs).2 := by
    rw [← hr]
  subst hst
  have cp := processItems_conserve (personStep c) (S "person_exception") ps
  have ce := processItems_conserve (eventStep c) (S "event_exception") es
  have cf := processItems_conserve (fundingStep c) (S "funding_exception") fs
  simp only [validateCore]
  constructor
  · have hp1 := cp.1
    have he1 := ce.1
    have hf1 := cf.1
    omega
  · have hp2 := cp.2
    have he2 := ce.2
    have hf2 := cf.2
    simp only [List.length_append]
    omega

/-- C1 (amended): every candidate the validator accepts carries a string
`evidence_quote` whose whitespace-stripped form is a non-empty exact
substring of the chunk text (the check strips the quote first; the stored
raw quote may carry extra leading/trailing whitespace). -/
theorem validate_evidence_substring (e : PyVal) (c : Str) (a : VAccepted) (st : VStats)
    (h : validate_extraction_for_chunk e c = .ok (a, st)) :
    (∀ p ∈ a.people, ∃ s, pyGet p (S "evidence_quote") = .ok (PyVal.str s) ∧
        strip s ≠ [] ∧ strip s <:+: c) ∧
    (∀ ev ∈ a.events, ∃ s, pyGet ev (S "evidence_quote") = .ok (PyVal.str s) ∧
        strip s ≠ [] ∧ strip s <:+: c) ∧
    (∀ fr ∈ a.funding_rounds, ∃ s, pyGet fr (S "evidence_quote") = .ok (PyVal.str s) ∧
        strip s ≠ [] ∧ strip s <:+: c) := by
  obtain ⟨exv, ps, es, fs, hr⟩ := validate_ok_inv e c (a, st) h
  have ha : a = (validateCore c exv ps.length es.length fs.length ps es fs).1 := by rw [← hr]
  subst ha
  simp only [validateCore]
  refine ⟨?_, ?_, ?_⟩ <;> intro x hx
  · exact personStep_accepts c x (processItems_mem _ _ ps x hx).2
  · exact eventStep_accepts c x (processItems_mem _ _ es x hx).2
  · obtain ⟨s, amt, h1, h2, h3, _, _⟩ := fundingStep_accepts c x (processItems_mem _ _ fs x hx).2
    exact ⟨s, h1, h2, h3⟩

/-- Result of a validator run, with a dummy fallback on the error branch
(used only to name concrete results in closed statements). -/
def vresP (r : Except Unit (VAccepted × VStats)) : VAccepted × VStats :=
  match r with
  | .ok x => x
  | .error _ => ({ extractor_version := PyVal.none, people := [], events := [],
                   funding_rounds := [] },
                 { people_in := 0, events_in := 0, funding_in := 0, people_ok := 0,
                   events_ok := 0, funding_ok := 0, rejected := 0, reject_reasons := [] })

def c1person : PyVal := PyVal.dict [(S "evidence_quote", PyVal.str [' ', 'x'])]

def c1payload : PyVal := PyVal.dict [(S "people", PyVal.list [c1person])]

def c1res : VAccepted × VStats := vresP (validate_extraction_for_chunk c1payload ['x'])

/-- C1, counterexample to the claim as stated: the candidate's
`evidence_quote` value `" x"` is accepted against chunk text `"x"` (the
check strips it first), yet the raw quote is not an exact substring of the
chunk text — so the accepted payload holds a candidate whose
`evidence_quote` is not a substring "with no normalization". -/
theorem validate_evidence_substring_counterexample :
    validate_extraction_for_chunk c1payload ['x'] = .ok (c1res.1, c1res.2) ∧
    c1person ∈ c1res.1.people ∧
    pyGet c1person (S "evidence_quote") = .ok (PyVal.str [' ', 'x']) ∧
    ¬ ([' ', 'x'] <:+: ['x']) := by
  refine ⟨rfl, by decide, rfl, by decide⟩

/-- Witness for C1 (amended) at the concrete accepted payload. -/
theorem validate_evidence_substring_witness :
    (∀ p ∈ c1res.1.people, ∃ s, pyGet p (S "evidence_quote") = .ok (PyVal.str s) ∧
        strip s ≠ [] ∧ strip s <:+: ['x']) ∧
    (∀ ev ∈ c1res.1.events, ∃ s, pyGet ev (S "evidence_quote") = .ok (PyVal.str s) ∧
        strip s ≠ [] ∧ strip s <:+: ['x']) ∧
    (∀ fr ∈ c1res.1.funding_rounds, ∃ s, pyGet fr (S "evidence_quote") = .ok (PyVal.str s) ∧
        strip s ≠ [] ∧ strip s <:+: ['x']) :=
  validate_evidence_substring c1payload ['x'] c1res.1 c1res.2 rfl

def w9payload : PyVal :=
  PyVal.dict [(S "people", PyVal.list [PyVal.int 3,
                PyVal.dict [(S "evidence_quote", PyVal.str (S "jane"))]]),
              (S "events", PyVal.str (S "zz")),
              (S "funding_rounds", PyVal.list [])]

def w9res : VAccepted × VStats := vresP (validate_extraction_for_chunk w9payload (S "jane doe"))

/-- Witness for C9 on a payload mixing malformed and valid candidates. -/
theorem validate_stats_conservation_witness :
    w9res.2.people_ok + w9res.2.events_ok + w9res.2.funding_ok + w9res.2.rejected =
      w9res.2.people_in + w9res.2.events_in + w9res.2.funding_in ∧
    w9res.2.reject_reasons.length = w9res.2.rejected :=
  validate_stats_conservation w9payload (S "jane doe") w9res.1 w9res.2 rfl

/-- C4: an accepted funding round with a non-null amount has `str(amount)`
verbatim inside its evidence quote (both the stripped quote that was
checked and the raw stored quote); and a funding candidate passing the
round-type and quote checks whose non-null amount is absent from the quote
is rejected with reason `funding_amount_not_in_quote`. -/
theorem validate_funding_amount (e : PyVal) (c : Str) (a : VAccepted) (st : VStats)
    (h : validate_extraction_for_chunk e c = .ok (a, st)) :
    (∀ fr ∈ a.funding_rounds, ∃ s amt,
        pyGet fr (S "evidence_quote") = .ok (PyVal.str s) ∧
        pyGet fr (S "amount") = .ok amt ∧
        (amt ≠ PyVal.none → pyStr amt <:+: strip s ∧ pyStr amt <:+: s)) ∧
    (∀ rt s amt, strip rt ∈ ROUND_TYPES → _quote_in_text (strip s) c = true →
        amt ≠ PyVal.none → ¬ (pyStr amt <:+: strip s) →
        fundingStep c (PyVal.dict [(S "round_type", PyVal.str rt), (S "amount", amt),
          (S "evidence_quote", PyVal.str s)]) =
          .ok (some (S "funding_amount_not_in_quote"))) := by
  constructor
  · obtain ⟨exv, ps, es, fs, hr⟩ := validate_ok_inv e c (a, st) h
    have ha : a = (validateCore c exv ps.length es.length fs.length ps es fs).1 := by
      rw [← hr]
    subst ha
    simp only [validateCore]
    intro fr hfr
    obtain ⟨s, amt, h1, _, _, h4, h5⟩ :=
      fundingStep_accepts c fr (processItems_mem _ _ fs fr hfr).2
    exact ⟨s, amt, h1, h4, fun hne => ⟨h5 hne, (h5 hne).trans (strip_infix_self s)⟩⟩
  · intro rt s amt hrt hq hamt hninf
    have n1 : S "round_type" ≠ S "amount" := by decide
    have n2 : S "round_type" ≠ S "evidence_quote" := by decide
    have n3 : S "amount" ≠ S "evidence_quote" := by decide
    have hg1 : pyGet (PyVal.dict [(S "round_type", PyVal.str rt), (S "amount", amt),
        (S "evidence_quote", PyVal.str s)]) (S "round_type") = .ok (PyVal.str rt) := by
      simp [pyGet, pyLookup]
    have hg2 : pyGet (PyVal.dict [(S "round_type", PyVal.str rt), (S "amount", amt),
        (S "evidence_quote", PyVal.str s)]) (S "evidence_quote") = .ok (PyVal.str s) := by
      simp [pyGet, pyLookup, n2, n3]
    have hg3 : pyGet (PyVal.dict [(S "round_type", PyVal.str rt), (S "amount", amt),
        (S "evidence_quote", PyVal.str s)]) (S "amount") = .ok amt := by
      simp [pyGet, pyLookup, n1]
    rw [fundingStep]
    simp only [hg1, pyStripM_or_str, hg2, hg3]
    rw [if_neg (by simp [hrt]), if_neg (by simp [hq]), if_pos ⟨hamt, hninf⟩]

def c4fr : PyVal :=
  PyVal.dict [(S "round_type", PyVal.str (S "seed")), (S "amount", PyVal.int 5000000),
              (S "evidence_quote", PyVal.str (S " raised 5000000 "))]

def c4payload : PyVal := PyVal.dict [(S "funding_rounds", PyVal.list [c4fr])]

def c4chunk : Str := S "raised 5000000 and raised $5M"

def c4res : VAccepted × VStats := vresP (validate_extraction_for_chunk c4payload c4chunk)

/-- Witness for C4: an accepted round whose amount appears in the quote,
and the rejection of a round whose amount does not. -/
theorem validate_funding_amount_witness :
    (∀ fr ∈ c4res.1.funding_rounds, ∃ s amt,
        pyGet fr (S "evidence_quote") = .ok (PyVal.str s) ∧
        pyGet fr (S "amount") = .ok amt ∧
        (amt ≠ PyVal.none → pyStr amt <:+: strip s ∧ pyStr amt <:+: s)) ∧
    fundingStep c4chunk (PyVal.dict [(S "round_type", PyVal.str (S "seed")),
        (S "amount", PyVal.int 5000000),
        (S "evidence_quote", PyVal.str (S "raised $5M"))]) =
      .ok (some (S "funding_amount_not_in_quote")) :=
  ⟨(validate_funding_amount c4payload c4chunk c4res.1 c4res.2 rfl).1,
   (validate_funding_amount c4payload c4chunk c4res.1 c4res.2 rfl).2
     (S "seed") (S "raised $5M") (PyVal.int 5000000)
     (by decide) (by decide) (by decide) (by decide)⟩

/-- A well-formed extraction payload with the validator's expected keys —
the shape the extraction client hands to the validator. -/
def mkPayload (exv : PyVal) (ps es fs : List PyVal) : PyVal :=
  PyVal.dict [(S "extractor_version", exv), (S "people", PyVal.list ps),
              (S "events", PyVal.list es), (S "funding_rounds", PyVal.list fs)]

lemma pyLen_or_list (xs : List PyVal) :
    pyLen (pyOr (.list xs) (.list [])) = .ok xs.length := by
  by_cases h : xs = [] <;> simp [pyOr, pyTruthy, pyLen, h]

lemma pyIter_or_list (xs : List PyVal) : pyIter (pyOr (.list xs) (.list [])) = .ok xs := by
  by_cases h : xs = [] <;> simp [pyOr, pyTruthy, pyIter, h]

lemma validate_mkPayload (c : Str) (exv : PyVal) (ps es fs : List PyVal) :
    validate_extraction_for_chunk (mkPayload exv ps es fs) c =
      .ok (validateCore c exv ps.length es.length fs.length ps es fs) := by
  have n1 : S "extractor_version" ≠ S "people" := by decide
  have n2 : S "extractor_version" ≠ S "events" := by decide
  have n3 : S "extractor_version" ≠ S "funding_rounds" := by decide
  have n4 : S "people" ≠ S "events" := by decide
  have n5 : S "people" ≠ S "funding_rounds" := by decide
  have n6 : S "events" ≠ S "funding_rounds" := by decide
  have g1 : pyGetD (mkPayload exv ps es fs) (S "extractor_version") (.str (S "unknown")) =
      .ok exv := by simp [mkPayload, pyGetD, pyLookup]
  have g2 : pyGetD (mkPayload exv ps es fs) (S "people") (.list []) = .ok (.list ps) := by
    simp [mkPayload, pyGetD, pyLookup, n1]
  have g3 : pyGetD (mkPayload exv ps es fs) (S "events") (.list []) = .ok (.list es) := by
    simp [mkPayload, pyGetD, pyLookup, n2, n4]
  have g4 : pyGetD (mkPayload exv ps es fs) (S "funding_rounds") (.list []) =
      .ok (.list fs) := by
    simp [mkPayload, pyGetD, pyLookup, n3, n5, n6]
  have g5 : pyGet (mkPayload exv ps es fs) (S "people") = .ok (.list ps) := by
    simp [mkPayload, pyGet, pyLookup, n1]
  have g6 : pyGet (mkPayload exv ps es fs) (S "events") = .ok (.list es) := by
    simp [mkPayload, pyGet, pyLookup, n2, n4]
  have g7 : pyGet (mkPayload exv ps es fs) (S "funding_rounds") = .ok (.list fs) := by
    simp [mkPayload, pyGet, pyLookup, n3, n5, n6]
  rw [validate_extraction_for_chunk]
  simp only [g1, g2, g3, g4, g5, g6, g7, pyLen_or_list, pyIter_or_list]

lemma processItems_insert_error (step : PyVal → Except Unit (Option Str)) (tag : Str)
    (b : PyVal) (hb : step b = .error ()) (ys : List PyVal) :
    ∀ xs : List PyVal,
      (processItems step tag (xs ++ b :: ys)).1 = (processItems step tag (xs ++ ys)).1 ∧
      (processItems step tag (xs ++ b :: ys)).2.1 = (processItems step tag (xs ++ ys)).2.1 ∧
      (processItems step tag (xs ++ b :: ys)).2.2.1 =
        (processItems step tag (xs ++ ys)).2.2.1 + 1 ∧
      (processItems step tag (xs ++ b :: ys)).2.2.2.length =
        (processItems step tag (xs ++ ys)).2.2.2.length + 1 ∧
      tag ∈ (processItems step tag (xs ++ b :: ys)).2.2.2 := by
  intro xs
  induction xs with
  | nil =>
    refine ⟨?_, ?_, ?_, ?_, ?_⟩ <;> simp [processItems, hb]
  | cons x xs ih =>
    have i1 := ih.1
    have i2 := ih.2.1
    have i3 := ih.2.2.1
    have i4 := ih.2.2.2.1
    have i5 := ih.2.2.2.2
    cases hs : step x with
    | error e =>
      simp only [List.cons_append, processItems, hs, List.append_eq]
      exact ⟨i1, i2, by omega, by simp [i4], List.mem_cons_of_mem _ i5⟩
    | ok o =>
      cases o with
      | some r =>
        simp only [List.cons_append, processItems, hs, List.append_eq]
        exact ⟨i1, i2, by omega, by simp [i4], List.mem_cons_of_mem _ i5⟩
      | none =>
        simp only [List.cons_append, processItems, hs, List.append_eq]
        exact ⟨by rw [i1], by omega, i3, i4, i5⟩

/-- C8: a candidate whose processing raises is caught and counted: it adds
exactly one rejection carrying the section's `*_exception` tag, and the
rest of the payload validates exactly as if the bad item were absent — the
accepted payload is unchanged.  Stated for a bad person, a bad event and a
bad funding candidate. -/
theorem validate_bad_item_isolated (c : Str) (exv b : PyVal)
    (ps es fs xs ys : List PyVal) :
    (personStep c b = .error () →
      ∃ a1 st1 a2 st2,
        validate_extraction_for_chunk (mkPayload exv (xs ++ b :: ys) es fs) c =
          .ok (a1, st1) ∧
        validate_extraction_for_chunk (mkPayload exv (xs ++ ys) es fs) c = .ok (a2, st2) ∧
        a1 = a2 ∧ st1.rejected = st2.rejected + 1 ∧
        st1.reject_reasons.length = st2.reject_reasons.length + 1 ∧
        S "person_exception" ∈ st1.reject_reasons) ∧
    (eventStep c b = .error () →
      ∃ a1 st1 a2 st2,
        validate_extraction_for_chunk (mkPayload exv ps (xs ++ b :: ys) fs) c =
          .ok (a1, st1) ∧
        validate_extraction_for_chunk (mkPayload exv ps (xs ++ ys) fs) c = .ok (a2, st2) ∧
        a1 = a2 ∧ st1.rejected = st2.rejected + 1 ∧
        st1.reject_reasons.length = st2.reject_reasons.length + 1 ∧
        S "event_exception" ∈ st1.reject_reasons) ∧
    (fundingStep c b = .error () →
      ∃ a1 st1 a2 st2,
        validate_extraction_for_chunk (mkPayload exv ps es (xs ++ b :: ys)) c =
          .ok (a1, st1) ∧
        validate_extraction_for_chunk (mkPayload exv ps es (xs ++ ys)) c = .ok (a2, st2) ∧
        a1 = a2 ∧ st1.rejected = st2.rejected + 1 ∧
        st1.reject_reasons.length = st2.reject_reasons.length + 1 ∧
        S "funding_exception" ∈ st1.reject_reasons) := by
  refine ⟨?_, ?_, ?_⟩ <;> intro hb
  · obtain hins := processItems_insert_error (personStep c) (S "person_exception") b hb ys xs
    refine ⟨_, _, _, _, validate_mkPayload c exv (xs ++ b :: ys) es fs,
      validate_mkPayload c exv (xs ++ ys) es fs, ?_, ?_, ?_, ?_⟩
    · rw [hins.1]
    · have := hins.2.2.1
      dsimp only
      omega
    · have := hins.2.2.2.1
      dsimp only
      simp only [List.length_append]
      omega
    · dsimp only
      exact List.mem_append.mpr (Or.inl (List.mem_append.mpr (Or.inl hins.2.2.2.2)))
  · obtain hins := processItems_insert_error (eventStep c) (S "event_exception") b hb ys xs
    refine ⟨_, _, _, _, validate_mkPayload c exv ps (xs ++ b :: ys) fs,
      validate_mkPayload c exv ps (xs ++ ys) fs, ?_, ?_, ?_, ?_⟩
    · rw [hins.1]
    · have := hins.2.2.1
      dsimp only
      omega
    · have := hins.2.2.2.1
      dsimp only
      simp only [List.length_append]
      omega
    · dsimp only
      exact List.mem_append.mpr (Or.inl (List.mem_append.mpr (Or.inr hins.2.2.2.2)))
  · obtain hins := processItems_insert_error (fundingStep c) (S "funding_exception") b hb ys xs
    refine ⟨_, _, _, _, validate_mkPayload c exv ps es (xs ++ b :: ys),
      validate_mkPayload c exv ps es (xs ++ ys), ?_, ?_, ?_, ?_⟩
    · rw [hins.1]
    · have := hins.2.2.1
      dsimp only
      omega
    · have := hins.2.2.2.1
      dsimp only
      simp only [List.length_append]
      omega
    · dsimp only
      exact List.mem_append.mpr (Or.inr hins.2.2.2.2)

def c8good : PyVal := PyVal.dict [(S "evidence_quote", PyVal.str ['x'])]

/-- Witness for C8: inserting the malformed candidate `0` (an integer, so
every attribute access on it raises) into each section of a payload. -/
theorem validate_bad_item_isolated_witness :
    (∃ a1 st1 a2 st2,
        validate_extraction_for_chunk (mkPayload (PyVal.str ['v']) ([] ++ PyVal.int 0 :: [c8good]) [] []) ['x'] =
          .ok (a1, st1) ∧
        validate_extraction_for_chunk (mkPayload (PyVal.str ['v']) ([] ++ [c8good]) [] []) ['x'] = .ok (a2, st2) ∧
        a1 = a2 ∧ st1.rejected = st2.rejected + 1 ∧
        st1.reject_reasons.length = st2.reject_reasons.length + 1 ∧
        S "person_exception" ∈ st1.reject_reasons) ∧
    (∃ a1 st1 a2 st2,
        validate_extraction_for_chunk (mkPayload (PyVal.str ['v']) [c8good] ([] ++ PyVal.int 0 :: [c8good]) []) ['x'] =
          .ok (a1, st1) ∧
        validate_extraction_for_chunk (mkPayload (PyVal.str ['v']) [c8good] ([] ++ [c8good]) []) ['x'] = .ok (a2, st2) ∧
        a1 = a2 ∧ st1.rejected = st2.rejected + 1 ∧
        st1.reject_reasons.length = st2.reject_reasons.length + 1 ∧
        S "event_exception" ∈ st1.reject_reasons) ∧
    (∃ a1 st1 a2 st2,
        validate_extraction_for_chunk (mkPayload (PyVal.str ['v']) [c8good] [] ([] ++ PyVal.int 0 :: [])) ['x'] =
          .ok (a1, st1) ∧
        validate_extraction_for_chunk (mkPayload (PyVal.str ['v']) [c8good] [] ([] ++ [])) ['x'] = .ok (a2, st2) ∧
        a1 = a2 ∧ st1.rejected = st2.rejected + 1 ∧
        st1.reject_reasons.length = st2.reject_reasons.length + 1 ∧
        S "funding_exception" ∈ st1.reject_reasons) :=
  ⟨(validate_bad_item_isolated ['x'] (PyVal.str ['v']) (PyVal.int 0) [c8good] [] [] [] [c8good]).1 rfl,
   (validate_bad_item_isolated ['x'] (PyVal.str ['v']) (PyVal.int 0) [c8good] [] [] [] [c8good]).2.1 rfl,
   (validate_bad_item_isolated ['x'] (PyVal.str ['v']) (PyVal.int 0) [c8good] [] [] [] []).2.2 rfl⟩

/- ------------------------------------------------------------------
Name normalization: `_norm_name` from src/pipeline/upsert.py (the key
actually used by the Person upsert) and `normalize_person_name` from
src/pipeline/normalize.py (the richer accent/punctuation folding, which
the upsert does not call).
------------------------------------------------------------------ -/

/-- The `_norm_name` helper of the upsert engine (upsert.py lines 4-5):
`" ".join((name or "").strip().lower().split())` — case and whitespace
folding only. -/
def _norm_name (name : Str) : Str :=
  joinSep [' '] (pySplitWs (lower (strip name)))

/-- Replaces each maximal run of `p`-characters by a single space
(model of `re.sub(r"[...]+", " ", s)`). -/
def collapseRunsGo (p : Char → Bool) : Bool → Str → Str
  | _, [] => []
  | inRun, c :: rest =>
    if p c then
      if inRun then collapseRunsGo p true rest
      else ' ' :: collapseRunsGo p true rest
    else c :: collapseRunsGo p false rest

def collapseRuns (p : Char → Bool) (s : Str) : Str := collapseRunsGo p false s

/-- The punctuation class of `normalize_person_name`
(normalize.py line 16). -/
def PUNCT_CLASS : List Char := ['.', ',', '(', ')', '[', ']', '\x7b', '\x7d', '-', '_', '/']

/-- Model of `normalize_person_name` (normalize.py lines 8-18), restricted
to ASCII input, where the NFKD normalization and combining-mark filter are
the identity: lower/strip, punctuation runs to spaces, whitespace runs
collapsed, ends stripped. -/
def normalize_person_name (name : Str) : Str :=
  if name = [] then []
  else
    let s := strip (lower name)
    let s := collapseRuns (fun c => decide (c ∈ PUNCT_CLASS)) s
    strip (collapseRuns isSpace s)

lemma char_eq_iff (c d : Char) : (c = d) ↔ (c.toNat = d.toNat) := by
  constructor
  · intro h
    rw [h]
  · intro h
    have h2 := congrArg Char.ofNat h
    rwa [Char.ofNat_toNat, Char.ofNat_toNat] at h2

lemma toNat_ofNat_valid (n : Nat) (h : n < 55296) : (Char.ofNat n).toNat = n := by
  have hv : n.isValidChar := Or.inl h
  rw [Char.ofNat, dif_pos hv]
  simp [Char.ofNatAux, Char.toNat, UInt32.toNat, BitVec.toNat_ofNatLt]

lemma isSpace_iff_toNat (d : Char) :
    isSpace d = true ↔ (d.toNat = 32 ∨ d.toNat = 9 ∨ d.toNat = 10 ∨ d.toNat = 13 ∨
      d.toNat = 11 ∨ d.toNat = 12) := by
  have e1 : (' ').toNat = 32 := rfl
  have e2 : ('\t').toNat = 9 := rfl
  have e3 : ('\n').toNat = 10 := rfl
  have e4 : ('\r').toNat = 13 := rfl
  have e5 : ('\x0b').toNat = 11 := rfl
  have e6 : ('\x0c').toNat = 12 := rfl
  simp only [isSpace, Bool.or_eq_true, decide_eq_true_eq]
  constructor
  · rintro (((((h | h) | h) | h) | h) | h) <;> rw [char_eq_iff] at h <;>
      [skip; skip; skip; skip; skip; skip] <;>
      simp only [e1, e2, e3, e4, e5, e6] at h <;> omega
  · rintro (h | h | h | h | h | h)
    · exact Or.inl (Or.inl (Or.inl (Or.inl (Or.inl (char_eq_iff _ _ |>.mpr (by rw [e1, h]))))))
    · exact Or.inl (Or.inl (Or.inl (Or.inl (Or.inr (char_eq_iff _ _ |>.mpr (by rw [e2, h]))))))
    · exact Or.inl (Or.inl (Or.inl (Or.inr (char_eq_iff _ _ |>.mpr (by rw [e3, h])))))
    · exact Or.inl (Or.inl (Or.inr (char_eq_iff _ _ |>.mpr (by rw [e4, h]))))
    · exact Or.inl (Or.inr (char_eq_iff _ _ |>.mpr (by rw [e5, h])))
    · exact Or.inr (char_eq_iff _ _ |>.mpr (by rw [e6, h]))

lemma isSpace_toLower (c : Char) : isSpace c.toLower = isSpace c := by
  by_cases h : 65 ≤ c.toNat ∧ c.toNat ≤ 90
  · have hl : c.toLower = Char.ofNat (c.toNat + 32) := by
      simp only [Char.toLower]
      rw [if_pos ⟨h.1, h.2⟩]
    have h32 : (Char.ofNat (c.toNat + 32)).toNat = c.toNat + 32 :=
      toNat_ofNat_valid _ (by omega)
    have fl : isSpace c.toLower = false := by
      rw [hl]
      cases hsp : isSpace (Char.ofNat (c.toNat + 32)) with
      | false => rfl
      | true =>
        have := (isSpace_iff_toNat _).mp hsp
        rw [h32] at this
        omega
    have fr : isSpace c = false := by
      cases hsp : isSpace c with
      | false => rfl
      | true =>
        have := (isSpace_iff_toNat _).mp hsp
        omega
    rw [fl, fr]
  · have hid : c.toLower = c := by
      simp only [Char.toLower]
      rw [if_neg (by omega)]
    rw [hid]

lemma isSpace_comp_toLower : (fun c => isSpace (Char.toLower c)) = isSpace := by
  funext c
  exact isSpace_toLower c

lemma lower_strip_comm (s : Str) : strip (lower s) = lower (strip s) := by
  simp only [strip, lower]
  rw [List.dropWhile_map, show isSpace ∘ Char.toLower = isSpace from funext isSpace_toLower]
  rw [← List.map_reverse, List.dropWhile_map,
    show isSpace ∘ Char.toLower = isSpace from funext isSpace_toLower, ← List.map_reverse]

/-- C5, counterexample to the claim as stated: `"a."` and `"a"` differ
only in punctuation (the repository's own `normalize_person_name` folds
them to the same string), yet the Person upsert's `_norm_name` maps them
to different identity keys — `_norm_name` folds only case and whitespace,
not accents or punctuation. -/
theorem _norm_name_punct_counterexample :
    normalize_person_name (S "a.") = normalize_person_name (S "a") ∧
    _norm_name (S "a.") ≠ _norm_name (S "a") := by
  refine ⟨by decide, by decide⟩

/-- C5 (amended): the identity key computed during Person upsert folds
letter case (and whitespace): two spellings equal up to case map to the
same `normalized_name`.  Accent and punctuation folding are not applied by
the upsert (they live only in the unused `normalize_person_name`). -/
theorem _norm_name_case_insensitive (a b : Str) (h : lower a = lower b) :
    _norm_name a = _norm_name b := by
  rw [_norm_name, _norm_name, ← lower_strip_comm, ← lower_strip_comm, h]

/-- Witness for C5 (amended): two case-variant spellings share a key. -/
theorem _norm_name_case_insensitive_witness :
    lower (S "Jane DOE") = lower (S "jane doe") ∧
    _norm_name (S "Jane DOE") = _norm_name (S "jane doe") :=
  ⟨by decide, _norm_name_case_insensitive (S "Jane DOE") (S "jane doe") (by decide)⟩

/- ------------------------------------------------------------------
Triage classifier, from src/pipeline/triage.py.
------------------------------------------------------------------ -/

/-- The label vocabulary (triage.py line 4). -/
def LABELS : List Str := [S "founders_team", S "funding", S "commercial_event", S "irrelevant"]

def FOUNDERS_KW : List Str :=
  [S "founder", S "co-founder", S "cofounder", S "leadership", S "team", S "management",
   S "ceo", S "cto", S "cfo", S "chief", S "board", S "executive", S "head of"]

def FUNDING_KW : List Str :=
  [S "raised", S "funding", S "series a", S "series b", S "series c", S "series d",
   S "seed round", S "seed", S "pre-seed", S "investment", S "investor", S "valuation",
   S "venture", S "vc", S "capital", S "financing", S "round led by"]

def COMMERCIAL_KW : List Str :=
  [S "partnership", S "partnered", S "strategic partner", S "customers", S "client",
   S "contract", S "deal", S "launched", S "launch", S "release", S "released",
   S "announced", S "expands", S "expansion", S "opened", S "acquisition", S "acquired",
   S "merger"]

def PRODUCT_KW : List Str :=
  [S "platform", S "product", S "solution", S "features", S "workflow", S "dashboard",
   S "ai-native", S "ai trained", S "use cases", S "pricing", S "request a demo",
   S "book a demo", S "demo", S "credit teams", S "debt markets", S "data extraction",
   S "insights"]

def NOISE_KW : List Str :=
  [S "cookie", S "privacy", S "terms", S "all rights reserved", S "subscribe",
   S "newsletter", S "sign up", S "login"]

/-- The `_score_keywords` helper (triage.py lines 46-47): how many of the
keywords occur as substrings. -/
def _score_keywords (textL : Str) (kws : List Str) : Nat :=
  kws.countP (fun kw => decide (kw <:+: textL))

/-- Word characters for the model of the regex `\b` boundary (ASCII
fragment of Python's `\w`). -/
def isWordChar (c : Char) : Bool := c.isAlpha || c.isDigit || c = '_'

/-- The alternatives of `ROLE_RE` (triage.py line 44), in the pattern's
order; `Co-?Founder` is expanded into its greedy-first two alternatives. -/
def ROLE_ALTS : List Str :=
  [S "CEO", S "CTO", S "CFO", S "COO", S "Chief", S "Founder", S "Co-Founder",
   S "CoFounder", S "VP", S "Vice President", S "Head of", S "Managing Director"]

/-- Case-insensitive prefix test (the pattern is compiled with `re.I`). -/
def lcIsPre : Str → Str → Bool
  | [], _ => true
  | _ :: _, [] => false
  | p :: ps, c :: cs => (Char.toLower p = Char.toLower c) && lcIsPre ps cs

/-- Word-boundary after a match: end of text or a non-word character. -/
def boundaryAfterOk : Str → Bool
  | [] => true
  | c :: _ => !isWordChar c

/-- First alternative matching at this position whose trailing `\b`
holds, as the regex engine's ordered alternation would pick it. -/
def firstAlt (alts : List Str) (s : Str) : Option Nat :=
  match alts with
  | [] => Option.none
  | a :: rest =>
    if lcIsPre a s && boundaryAfterOk (s.drop a.length) then some a.length
    else firstAlt rest s

/-- Left-to-right non-overlapping scan counting `ROLE_RE` matches
(`re.findall` semantics).  `prevIsWord` tracks whether the previous
character is a word character (for the leading `\b`); every alternative
ends in a word character, so after a match the flag is true. -/
def roleScanF : Nat → Bool → Str → Nat
  | 0, _, _ => 0
  | _ + 1, _, [] => 0
  | fuel + 1, prevIsWord, c :: rest =>
    if prevIsWord then roleScanF fuel (isWordChar c) rest
    else
      match firstAlt ROLE_ALTS (c :: rest) with
      | some n => 1 + roleScanF fuel true ((c :: rest).drop n)
      | Option.none => roleScanF fuel (isWordChar c) rest

/-- Model of `len(ROLE_RE.findall(t))`. -/
def roleFindallCount (s : Str) : Nat := roleScanF s.length false s

/-- The result dictionary of `triage_chunk`.  Confidence is modelled in
exact rational arithmetic (the claims do not depend on floating point
rounding). -/
structure TriageResult where
  labels : List Str
  confidence : ℚ
  reason : Str
deriving DecidableEq

/-- Label assignment, confidence heuristic and reason assembly of
`triage_chunk` (triage.py lines 61-107), once the keyword scores, role
hits and normalized text length are computed. -/
def triageAssemble (founders funding commercialBase product noise roleHits tlen : Nat) :
    TriageResult :=
  let l1 := if 2 ≤ founders ∨ 2 ≤ roleHits then [S "founders_team"] else []
  let r1 := if 2 ≤ founders ∨ 2 ≤ roleHits then
      (S "founders_kw=" ++ natToStr founders) ::
        (if roleHits ≠ 0 then [S "role_hits=" ++ natToStr roleHits] else [])
    else []
  let l2 := if 2 ≤ funding then [S "funding"] else []
  let r2 := if 2 ≤ funding then [S "funding_kw=" ++ natToStr funding] else []
  let commercial := commercialBase + product
  let l3 := if 2 ≤ commercial then [S "commercial_event"] else []
  let r3 := if 2 ≤ commercial then
      [S "commercial_kw=" ++ natToStr commercialBase, S "product_kw=" ++ natToStr product]
    else []
  let labels := l1 ++ l2 ++ l3
  let reasonParts := r1 ++ r2 ++ r3
  if labels = [] then
    if 2 ≤ noise then
      { labels := [S "irrelevant"], confidence := (85 : ℚ) / 100,
        reason := S "noise_kw=" ++ natToStr noise }
    else
      { labels := [S "irrelevant"],
        confidence := if 1200 < tlen then (65 : ℚ) / 100 else (70 : ℚ) / 100,
        reason := S "no_signal" }
  else
    let signal := founders + funding + commercial + min roleHits 3
    let conf := min ((95 : ℚ) / 100) ((55 : ℚ) / 100 + (7 : ℚ) / 100 * signal)
    let conf2 := max ((60 : ℚ) / 100) conf
    { labels := labels, confidence := conf2, reason := joinSep [';'] reasonParts }

/-- Model of `triage_chunk` (src/pipeline/triage.py). -/
def triage_chunk (chunkText : Str) : TriageResult :=
  let t := strip (collapseRuns isSpace chunkText)
  let tl := lower t
  if t.length < 250 then
    { labels := [S "irrelevant"], confidence := (9 : ℚ) / 10, reason := S "too_short" }
  else
    triageAssemble (_score_keywords tl FOUNDERS_KW) (_score_keywords tl FUNDING_KW)
      (_score_keywords tl COMMERCIAL_KW) (_score_keywords tl PRODUCT_KW)
      (_score_keywords tl NOISE_KW) (roleFindallCount t) t.length

lemma triageAssemble_labels (fo fu cb pr no rh tl : Nat) :
    (triageAssemble fo fu cb pr no rh tl).labels ≠ [] ∧
    (∀ l ∈ (triageAssemble fo fu cb pr no rh tl).labels, l ∈ LABELS) ∧
    (S "irrelevant" ∈ (triageAssemble fo fu cb pr no rh tl).labels →
      (triageAssemble fo fu cb pr no rh tl).labels = [S "irrelevant"]) := by
  simp only [triageAssemble]
  split_ifs
  all_goals try (exact absurd rfl (by assumption))
  all_goals refine ⟨by simp, ?_, ?_⟩ <;> dsimp only <;> decide

/-- C10: for every input text, the triage result's labels are non-empty,
drawn from the fixed label vocabulary, and `irrelevant` is only ever
returned alone. -/
theorem triage_chunk_labels (t : Str) :
    (triage_chunk t).labels ≠ [] ∧
    (∀ l ∈ (triage_chunk t).labels, l ∈ LABELS) ∧
    (S "irrelevant" ∈ (triage_chunk t).labels → (triage_chunk t).labels = [S "irrelevant"]) := by
  simp only [triage_chunk]
  by_cases h0 : (strip (collapseRuns isSpace t)).length < 250
  · rw [if_pos h0]
    decide
  · rw [if_neg h0]
    exact triageAssemble_labels _ _ _ _ _ _ _

/-- Witness for C10 at a concrete input. -/
theorem triage_chunk_labels_witness :
    (triage_chunk (S "hello")).labels ≠ [] ∧
    (∀ l ∈ (triage_chunk (S "hello")).labels, l ∈ LABELS) ∧
    (S "irrelevant" ∈ (triage_chunk (S "hello")).labels →
      (triage_chunk (S "hello")).labels = [S "irrelevant"]) :=
  triage_chunk_labels (S "hello")


/- ------------------------------------------------------------------
Upsert engine, from src/pipeline/upsert.py.  The relational store is not
part of src/; its conflict semantics are modelled from the spec: unique
constraints on people(company_id, normalized_name) and
events(company_id, type, date, title_hash) (spec section 6), with
`INSERT ... ON CONFLICT ... DO UPDATE` resolving to an in-place update of
the matching row.  The sha256-based title digest is an external library
call and is modelled by an abstract digest parameter `hh`.
------------------------------------------------------------------ -/

/-- Is this value accepted by Python `float(...)`?  `float()` of the
falsy-default `0.0` never raises; integers and booleans convert; strings
convert when they are (a simple model of) float literals; `None`, lists
and dictionaries raise `TypeError`. -/
def isFloatLit (s : Str) : Bool :=
  let t := strip s
  let t2 := match t with
    | '+' :: r => r
    | '-' :: r => r
    | _ => t
  decide (t2.count '.' ≤ 1) && decide (1 ≤ (t2.filter Char.isDigit).length) &&
    t2.all (fun c => c.isDigit || c = '.')

def pyFloatOk : PyVal → Bool
  | .int _ => true
  | .bool _ => true
  | .str s => isFloatLit s
  | _ => false

/-- Model of `', '.join(v)`: the receiver must be iterable and all its
elements strings. -/
def allStrs : List PyVal → Except Unit (List Str)
  | [] => .ok []
  | .str s :: xs =>
    match allStrs xs with
    | .error e => .error e
    | .ok ss => .ok (s :: ss)
  | _ :: _ => .error ()

def pyJoinStrs (sep : Str) (v : PyVal) : Except Unit Str :=
  match pyIter v with
  | .error e => .error e
  | .ok xs =>
    match allStrs xs with
    | .error e => .error e
    | .ok ss => .ok (joinSep sep ss)

/-- The `_title_hash` helper (upsert.py lines 7-8):
`sha256((title or "").strip().lower())[:16]`, with the digest itself
abstracted as `hh` (only its determinism matters to the claims). -/
def _title_hash (hh : Str → Str) (title : Str) : Str := hh (lower (strip title))

/-- A row of the people table (columns written by the upsert). -/
structure PRow where
  company_id : Str
  name : Str
  normalized_name : Str
  role : Str
  linkedin_url : PyVal
deriving DecidableEq

/-- A row of the events table (columns written by the upsert). -/
structure ERow where
  company_id : Str
  etype : Str
  date : PyVal
  title : Str
  title_hash : Str
  summary : Str
deriving DecidableEq

/-- The identifier returned by `RETURNING`, modelled as the row's natural
key. -/
inductive ObjId where
  | personId (company_id normalized_name : Str)
  | eventId (company_id : Str) (etype : Str) (date : PyVal) (title_hash : Str)
deriving DecidableEq

/-- A row of the append-only evidence table. -/
structure EvRow where
  object_type : Str
  object_id : ObjId
  field : Str
  value : Str
  source_id : Str
  url : Str
  quote : Str
  confidence : PyVal
  extractor_version : PyVal
deriving DecidableEq

/-- The relational store as seen by the upsert engine. -/
structure Store where
  people : List PRow
  events : List ERow
  evidence : List EvRow
deriving DecidableEq

/-- Natural key of a people row. -/
def pkey (r : PRow) : Str × Str := (r.company_id, r.normalized_name)

/-- Natural key of an events row. -/
def ekey (r : ERow) : Str × Str × PyVal × Str := (r.company_id, r.etype, r.date, r.title_hash)

/-- Modelled from the spec: `INSERT ... ON CONFLICT(key) DO UPDATE`
against a unique key — update the matching row in place, or append a
fresh row when no row matches. -/
def upsertBy {ρ κ : Type} [DecidableEq κ] (key : ρ → κ) (k : κ) (upd : ρ → ρ) (fresh : ρ) :
    List ρ → List ρ
  | [] => [fresh]
  | r :: rest => if key r = k then upd r :: rest else r :: upsertBy key k upd fresh rest

/-- People upsert (upsert.py lines 40-51): conflict on
`(company_id, normalized_name)`; `role` is overwritten, `linkedin_url`
coalesced (a null new value keeps the old one), `name` fixed at first
insert. -/
def upsertPeople (tbl : List PRow) (cid name nn role : Str) (li : PyVal) : List PRow :=
  upsertBy pkey (cid, nn)
    (fun r =>
      { r with
        role := role,
        linkedin_url := if li = PyVal.none then r.linkedin_url else li })
    { company_id := cid, name := name, normalized_name := nn, role := role,
      linkedin_url := li }
    tbl

/-- Events upsert (upsert.py lines 79-89 and 122-131): conflict on
`(company_id, type, date, title_hash)`; only `summary` is overwritten. -/
def upsertEvents (tbl : List ERow) (cid etype : Str) (date : PyVal)
    (title titleH summary : Str) : List ERow :=
  upsertBy ekey (cid, etype, date, titleH)
    (fun r => { r with summary := summary })
    { company_id := cid, etype := etype, date := date, title := title,
      title_hash := titleH, summary := summary }
    tbl

/-- Person fields read by the upsert (upsert.py lines 28-32); `float(...)`
on a non-convertible confidence raises, aborting the transaction. -/
structure PFields where
  name : Str
  role : Str
  linkedin_url : PyVal
  confidence : PyVal
  quote : Str
deriving DecidableEq

def getPersonFields (p : PyVal) : Except Unit PFields :=
  match pyGet p (S "name") with
  | .error e => .error e
  | .ok nv =>
  match pyStripM (pyOr nv (.str [])) with
  | .error e => .error e
  | .ok name =>
  match pyGet p (S "role") with
  | .error e => .error e
  | .ok rv =>
  match pyStripM (pyOr rv (.str [])) with
  | .error e => .error e
  | .ok role =>
  match pyGet p (S "linkedin_url") with
  | .error e => .error e
  | .ok lv =>
  match pyGet p (S "confidence") with
  | .error e => .error e
  | .ok cv =>
  if pyFloatOk (pyOr cv (.int 0)) = false then .error ()
  else
  match pyGet p (S "evidence_quote") with
  | .error e => .error e
  | .ok qv =>
  match pyStripM (pyOr qv (.str [])) with
  | .error e => .error e
  | .ok quote =>
    .ok { name := name, role := role, linkedin_url := pyOr lv PyVal.none,
          confidence := pyOr cv (.int 0), quote := quote }

/-- Event fields read by the upsert (upsert.py lines 67-72). -/
structure EFields where
  etype : Str
  date : PyVal
  title : Str
  summary : Str
  confidence : PyVal
  quote : Str
deriving DecidableEq

def getEventFields (e : PyVal) : Except Unit EFields :=
  match pyGet e (S "type") with
  | .error ex => .error ex
  | .ok tv =>
  match pyStripM (pyOr tv (.str [])) with
  | .error ex => .error ex
  | .ok etype =>
  match pyGet e (S "date") with
  | .error ex => .error ex
  | .ok date =>
  match pyGet e (S "title") with
  | .error ex => .error ex
  | .ok ttv =>
  match pyStripM (pyOr ttv (.str [])) with
  | .error ex => .error ex
  | .ok title =>
  match pyGet e (S "summary") with
  | .error ex => .error ex
  | .ok sv =>
  match pyStripM (pyOr sv (.str [])) with
  | .error ex => .error ex
  | .ok summary =>
  match pyGet e (S "confidence") with
  | .error ex => .error ex
  | .ok cv =>
  if pyFloatOk (pyOr cv (.int 0)) = false then .error ()
  else
  match pyGet e (S "evidence_quote") with
  | .error ex => .error ex
  | .ok qv =>
  match pyStripM (pyOr qv (.str [])) with
  | .error ex => .error ex
  | .ok quote =>
    .ok { etype := etype, date := date, title := title, summary := summary,
          confidence := pyOr cv (.int 0), quote := quote }

/-- Funding fields read by the upsert (upsert.py lines 104-110); the
investors join happens later, after the skip check. -/
structure FFields where
  round_type : Str
  amount : PyVal
  currency : PyVal
  date : PyVal
  investors : PyVal
  confidence : PyVal
  quote : Str
deriving DecidableEq

def getFundingFields (fr : PyVal) : Except Unit FFields :=
  match pyGet fr (S "round_type") with
  | .error ex => .error ex
  | .ok rv =>
  match pyStripM (pyOr rv (.str [])) with
  | .error ex => .error ex
  | .ok rt =>
  match pyGet fr (S "amount") with
  | .error ex => .error ex
  | .ok amount =>
  match pyGet fr (S "currency") with
  | .error ex => .error ex
  | .ok currency =>
  match pyGet fr (S "date") with
  | .error ex => .error ex
  | .ok date =>
  match pyGet fr (S "investors") with
  | .error ex => .error ex
  | .ok iv =>
  match pyGet fr (S "confidence") with
  | .error ex => .error ex
  | .ok cv =>
  if pyFloatOk (pyOr cv (.int 0)) = false then .error ()
  else
  match pyGet fr (S "evidence_quote") with
  | .error ex => .error ex
  | .ok qv =>
  match pyStripM (pyOr qv (.str [])) with
  | .error ex => .error ex
  | .ok quote =>
    .ok { round_type := rt, amount := amount, currency := currency, date := date,
          investors := pyOr iv (.list []), confidence := pyOr cv (.int 0), quote := quote }

/-- The people loop of `persist_accepted_extraction` (upsert.py lines
27-63): read fields, skip rows without name or quote, otherwise upsert
and append one evidence row. -/
def persistPeople (cid sid url : Str) (exv : PyVal) :
    List PyVal → Store → Except Unit (Store × Nat)
  | [], st => .ok (st, 0)
  | p :: rest, st =>
    match getPersonFields p with
    | .error e => .error e
    | .ok f =>
      if f.name = [] ∨ f.quote = [] then persistPeople cid sid url exv rest st
      else
        let nn := _norm_name f.name
        let row : EvRow :=
          { object_type := S "person",
            object_id := ObjId.personId cid nn,
            field := S "person.role",
            value := f.role,
            source_id := sid,
            url := url,
            quote := f.quote,
            confidence := f.confidence,
            extractor_version := exv }
        match persistPeople cid sid url exv rest
            { st with people := upsertPeople st.people cid f.name nn f.role f.linkedin_url,
                      evidence := st.evidence ++ [row] } with
        | .error e => .error e
        | .ok (st2, n) => .ok (st2, n + 1)

/-- The events loop (upsert.py lines 66-100). -/
def persistEvents (hh : Str → Str) (cid sid url : Str) (exv : PyVal) :
    List PyVal → Store → Except Unit (Store × Nat)
  | [], st => .ok (st, 0)
  | e :: rest, st =>
    match getEventFields e with
    | .error ex => .error ex
    | .ok f =>
      if f.etype = [] ∨ f.title = [] ∨ f.quote = [] then persistEvents hh cid sid url exv rest st
      else
        let th := _title_hash hh f.title
        let row : EvRow :=
          { object_type := S "event",
            object_id := ObjId.eventId cid f.etype f.date th,
            field := S "event.summary",
            value := f.summary,
            source_id := sid,
            url := url,
            quote := f.quote,
            confidence := f.confidence,
            extractor_version := exv }
        match persistEvents hh cid sid url exv rest
            { st with events := upsertEvents st.events cid f.etype f.date f.title th f.summary,
                      evidence := st.evidence ++ [row] } with
        | .error ex => .error ex
        | .ok (st2, n) => .ok (st2, n + 1)

/-- The funding loop (upsert.py lines 103-142): funding rounds are folded
into the events table as `type='funding'` with a synthesized title and
summary. -/
def persistFunding (hh : Str → Str) (cid sid url : Str) (exv : PyVal) :
    List PyVal → Store → Except Unit (Store × Nat)
  | [], st => .ok (st, 0)
  | fr :: rest, st =>
    match getFundingFields fr with
    | .error ex => .error ex
    | .ok f =>
      if f.round_type = [] ∨ f.quote = [] then persistFunding hh cid sid url exv rest st
      else
        match pyJoinStrs (S ", ") f.investors with
        | .error ex => .error ex
        | .ok inv =>
          let title := upper f.round_type ++ S " round"
          let th := _title_hash hh title
          let summary := S "Round=" ++ f.round_type ++ S "; amount=" ++ pyStr f.amount ++
            [' '] ++ pyStr f.currency ++ S "; investors=" ++ inv
          let row : EvRow :=
            { object_type := S "event",
              object_id := ObjId.eventId cid (S "funding") f.date th,
              field := S "funding.round",
              value := f.round_type,
              source_id := sid,
              url := url,
              quote := f.quote,
              confidence := f.confidence,
              extractor_version := exv }
          match persistFunding hh cid sid url exv rest
              { st with events := upsertEvents st.events cid (S "funding") f.date title th summary,
                        evidence := st.evidence ++ [row] } with
          | .error ex => .error ex
          | .ok (st2, n) => .ok (st2, n + 1)

/-- The counts dictionary returned by `persist_accepted_extraction`. -/
structure PersistCounts where
  people_upserted : Nat
  events_upserted : Nat
  funding_upserted : Nat
  evidence_inserted : Nat
deriving DecidableEq

/-- Model of `persist_accepted_extraction` (src/pipeline/upsert.py).  The
whole call is one transaction (`with conn`): an error leaves the caller's
store unchanged.  Each successful upsert appends exactly one evidence row,
so `evidence_inserted` equals the sum of the per-section counts, as in the
source where the two counters are incremented together. -/
def persist_accepted_extraction (hh : Str → Str) (cid sid url : Str) (acc : VAccepted)
    (st : Store) : Except Unit (Store × PersistCounts) :=
  match persistPeople cid sid url acc.extractor_version acc.people st with
  | .error e => .error e
  | .ok (st1, np) =>
  match persistEvents hh cid sid url acc.extractor_version acc.events st1 with
  | .error e => .error e
  | .ok (st2, ne) =>
  match persistFunding hh cid sid url acc.extractor_version acc.funding_rounds st2 with
  | .error e => .error e
  | .ok (st3, nf) =>
    .ok (st3, { people_upserted := np, events_upserted := ne, funding_upserted := nf,
                evidence_inserted := np + ne + nf })


/- Generic facts about keyed upserts. -/

lemma upsertBy_map_key {ρ κ : Type} [DecidableEq κ] (key : ρ → κ) (k : κ)
    (upd : ρ → ρ) (fresh : ρ) (hupd : ∀ r, key (upd r) = key r) (hf : key fresh = k) :
    ∀ tbl : List ρ, (upsertBy key k upd fresh tbl).map key =
      if k ∈ tbl.map key then tbl.map key else tbl.map key ++ [k] := by
  intro tbl
  induction tbl with
  | nil => simp [upsertBy, hf]
  | cons r rest ih =>
    by_cases hk : key r = k
    · simp [upsertBy, hk, hupd]
    · simp only [upsertBy, if_neg hk, List.map_cons, ih]
      have hmem : (k ∈ key r :: rest.map key) ↔ (k ∈ rest.map key) := by
        constructor
        · intro hmm
          rcases List.mem_cons.mp hmm with h1 | h1
          · exact absurd h1.symm hk
          · exact h1
        · exact fun hmm => List.mem_cons_of_mem _ hmm
      by_cases hm : k ∈ rest.map key
      · rw [if_pos hm, if_pos (hmem.mpr hm)]
      · rw [if_neg hm, if_neg (fun h => hm (hmem.mp h))]
        simp

lemma length_eq_map_length {ρ κ : Type} (key : ρ → κ) (l : List ρ) :
    l.length = (l.map key).length := by simp

/-- One upsert per accepted item, applied in order. -/
def opsApply {ρ κ : Type} [DecidableEq κ] (key : ρ → κ) :
    List (κ × (ρ → ρ) × ρ) → List ρ → List ρ
  | [], tbl => tbl
  | op :: rest, tbl => opsApply key rest (upsertBy key op.1 op.2.1 op.2.2 tbl)

/-- Well-formed upsert operations: updates preserve the key, and the
fresh row carries the operation's key. -/
def GoodOps {ρ κ : Type} (key : ρ → κ) (ops : List (κ × (ρ → ρ) × ρ)) : Prop :=
  ∀ op ∈ ops, (∀ r, key (op.2.1 r) = key r) ∧ key op.2.2 = op.1

lemma opsApply_append {ρ κ : Type} [DecidableEq κ] (key : ρ → κ) :
    ∀ (a b : List (κ × (ρ → ρ) × ρ)) (tbl : List ρ),
      opsApply key (a ++ b) tbl = opsApply key b (opsApply key a tbl) := by
  intro a
  induction a with
  | nil => intro b tbl; rfl
  | cons op rest ih => intro b tbl; simp only [List.cons_append, opsApply, List.append_eq, ih]

lemma opsApply_mono {ρ κ : Type} [DecidableEq κ] (key : ρ → κ) :
    ∀ (ops : List (κ × (ρ → ρ) × ρ)), GoodOps key ops →
      ∀ (tbl : List ρ) (k0 : κ), k0 ∈ tbl.map key → k0 ∈ (opsApply key ops tbl).map key := by
  intro ops
  induction ops with
  | nil => intro _ tbl k0 h; exact h
  | cons op rest ih =>
    intro hg tbl k0 h
    have hop := hg op (List.mem_cons_self _ _)
    have hrest : GoodOps key rest := fun o ho => hg o (List.mem_cons_of_mem _ ho)
    apply ih hrest
    rw [upsertBy_map_key key op.1 op.2.1 op.2.2 hop.1 hop.2]
    split
    · exact h
    · exact List.mem_append.mpr (Or.inl h)

lemma opsApply_covers {ρ κ : Type} [DecidableEq κ] (key : ρ → κ) :
    ∀ (ops : List (κ × (ρ → ρ) × ρ)), GoodOps key ops →
      ∀ (tbl : List ρ) (op : κ × (ρ → ρ) × ρ), op ∈ ops →
        op.1 ∈ (opsApply key ops tbl).map key := by
  intro ops
  induction ops with
  | nil => intro _ _ _ h; exact absurd h (List.not_mem_nil _)
  | cons op0 rest ih =>
    intro hg tbl op hop
    have hop0 := hg op0 (List.mem_cons_self _ _)
    have hrest : GoodOps key rest := fun o ho => hg o (List.mem_cons_of_mem _ ho)
    rcases List.mem_cons.mp hop with rfl | hmem
    · apply opsApply_mono key rest hrest
      rw [upsertBy_map_key key op.1 op.2.1 op.2.2 hop0.1 hop0.2]
      split
      · assumption
      · exact List.mem_append.mpr (Or.inr (by simp))
    · exact ih hrest _ op hmem

lemma opsApply_stable {ρ κ : Type} [DecidableEq κ] (key : ρ → κ) :
    ∀ (ops : List (κ × (ρ → ρ) × ρ)), GoodOps key ops →
      ∀ tbl : List ρ, (∀ op ∈ ops, op.1 ∈ tbl.map key) →
        (opsApply key ops tbl).map key = tbl.map key := by
  intro ops
  induction ops with
  | nil => intro _ tbl _; rfl
  | cons op rest ih =>
    intro hg tbl hall
    have hop := hg op (List.mem_cons_self _ _)
    have hrest : GoodOps key rest := fun o ho => hg o (List.mem_cons_of_mem _ ho)
    have hkeys : (upsertBy key op.1 op.2.1 op.2.2 tbl).map key = tbl.map key := by
      rw [upsertBy_map_key key op.1 op.2.1 op.2.2 hop.1 hop.2,
        if_pos (hall op (List.mem_cons_self _ _))]
    simp only [opsApply]
    rw [ih hrest _ (by intro o ho; rw [hkeys]; exact hall o (List.mem_cons_of_mem _ ho)), hkeys]

lemma opsApply_stable_length {ρ κ : Type} [DecidableEq κ] (key : ρ → κ)
    (ops : List (κ × (ρ → ρ) × ρ)) (hg : GoodOps key ops) (tbl : List ρ)
    (hall : ∀ op ∈ ops, op.1 ∈ tbl.map key) :
    (opsApply key ops tbl).length = tbl.length := by
  rw [length_eq_map_length key, length_eq_map_length key tbl,
    opsApply_stable key ops hg tbl hall]


/- Per-section decompositions of the persist loops: field extraction
(with skips dropped) is separated from the state-threading, so the
table updates become a pure `opsApply` and the evidence rows a map. -/

def itemsFieldsP : List PyVal → Except Unit (List PFields)
  | [] => .ok []
  | p :: rest =>
    match getPersonFields p with
    | .error e => .error e
    | .ok f =>
      match itemsFieldsP rest with
      | .error e => .error e
      | .ok fl => .ok (if f.name = [] ∨ f.quote = [] then fl else f :: fl)

def personOpOf (cid : Str) (f : PFields) : (Str × Str) × (PRow → PRow) × PRow :=
  ((cid, _norm_name f.name),
   fun r =>
     { r with
       role := f.role,
       linkedin_url := if f.linkedin_url = PyVal.none then r.linkedin_url else f.linkedin_url },
   { company_id := cid, name := f.name, normalized_name := _norm_name f.name,
     role := f.role, linkedin_url := f.linkedin_url })

def personRowOf (cid sid url : Str) (exv : PyVal) (f : PFields) : EvRow :=
  { object_type := S "person",
    object_id := ObjId.personId cid (_norm_name f.name),
    field := S "person.role",
    value := f.role,
    source_id := sid,
    url := url,
    quote := f.quote,
    confidence := f.confidence,
    extractor_version := exv }

lemma persistPeople_decomp (cid sid url : Str) (exv : PyVal) :
    ∀ (items : List PyVal) (st : Store),
      persistPeople cid sid url exv items st =
        match itemsFieldsP items with
        | .error e => .error e
        | .ok fl =>
          .ok ({ people := opsApply pkey (fl.map (personOpOf cid)) st.people,
                 events := st.events,
                 evidence := st.evidence ++ fl.map (personRowOf cid sid url exv) },
               fl.length) := by
  intro items
  induction items with
  | nil =>
    intro st
    simp [persistPeople, itemsFieldsP, opsApply]
  | cons p rest ih =>
    intro st
    simp only [persistPeople, itemsFieldsP]
    cases hf : getPersonFields p with
    | error e => rfl
    | ok f =>
      dsimp only
      by_cases hskip : f.name = [] ∨ f.quote = []
      · rw [if_pos hskip, ih st]
        cases hrest : itemsFieldsP rest with
        | error e => rfl
        | ok fl => simp [hskip]
      · rw [if_neg hskip]
        rw [ih]
        cases hrest : itemsFieldsP rest with
        | error e => rfl
        | ok fl =>
          simp only [if_neg hskip, List.map_cons, opsApply,
            upsertPeople, personOpOf, personRowOf]
          simp [List.append_assoc]

def itemsFieldsE : List PyVal → Except Unit (List EFields)
  | [] => .ok []
  | e :: rest =>
    match getEventFields e with
    | .error ex => .error ex
    | .ok f =>
      match itemsFieldsE rest with
      | .error ex => .error ex
      | .ok fl => .ok (if f.etype = [] ∨ f.title = [] ∨ f.quote = [] then fl else f :: fl)

def eventOpOf (hh : Str → Str) (cid : Str) (f : EFields) :
    (Str × Str × PyVal × Str) × (ERow → ERow) × ERow :=
  ((cid, f.etype, f.date, _title_hash hh f.title),
   fun r => { r with summary := f.summary },
   { company_id := cid, etype := f.etype, date := f.date, title := f.title,
     title_hash := _title_hash hh f.title, summary := f.summary })

def eventRowOf (hh : Str → Str) (cid sid url : Str) (exv : PyVal) (f : EFields) : EvRow :=
  { object_type := S "event",
    object_id := ObjId.eventId cid f.etype f.date (_title_hash hh f.title),
    field := S "event.summary",
    value := f.summary,
    source_id := sid,
    url := url,
    quote := f.quote,
    confidence := f.confidence,
    extractor_version := exv }

lemma persistEvents_decomp (hh : Str → Str) (cid sid url : Str) (exv : PyVal) :
    ∀ (items : List PyVal) (st : Store),
      persistEvents hh cid sid url exv items st =
        match itemsFieldsE items with
        | .error ex => .error ex
        | .ok fl =>
          .ok ({ people := st.people,
                 events := opsApply ekey (fl.map (eventOpOf hh cid)) st.events,
                 evidence := st.evidence ++ fl.map (eventRowOf hh cid sid url exv) },
               fl.length) := by
  intro items
  induction items with
  | nil =>
    intro st
    simp [persistEvents, itemsFieldsE, opsApply]
  | cons e rest ih =>
    intro st
    simp only [persistEvents, itemsFieldsE]
    cases hf : getEventFields e with
    | error ex => rfl
    | ok f =>
      dsimp only
      by_cases hskip : f.etype = [] ∨ f.title = [] ∨ f.quote = []
      · rw [if_pos hskip, ih st]
        cases hrest : itemsFieldsE rest with
        | error ex => rfl
        | ok fl => simp [hskip]
      · rw [if_neg hskip]
        rw [ih]
        cases hrest : itemsFieldsE rest with
        | error ex => rfl
        | ok fl =>
          simp only [if_neg hskip, List.map_cons, opsApply,
            upsertEvents, eventOpOf, eventRowOf]
          simp [List.append_assoc]

def itemsFieldsF : List PyVal → Except Unit (List (FFields × Str))
  | [] => .ok []
  | fr :: rest =>
    match getFundingFields fr with
    | .error ex => .error ex
    | .ok f =>
      if f.round_type = [] ∨ f.quote = [] then itemsFieldsF rest
      else
        match pyJoinStrs (S ", ") f.investors with
        | .error ex => .error ex
        | .ok inv =>
          match itemsFieldsF rest with
          | .error ex => .error ex
          | .ok fl => .ok ((f, inv) :: fl)

def fundingTitle (f : FFields) : Str := upper f.round_type ++ S " round"

def fundingSummary (fi : FFields × Str) : Str :=
  S "Round=" ++ fi.1.round_type ++ S "; amount=" ++ pyStr fi.1.amount ++
    [' '] ++ pyStr fi.1.currency ++ S "; investors=" ++ fi.2

def fundingOpOf (hh : Str → Str) (cid : Str) (fi : FFields × Str) :
    (Str × Str × PyVal × Str) × (ERow → ERow) × ERow :=
  ((cid, S "funding", fi.1.date, _title_hash hh (fundingTitle fi.1)),
   fun r => { r with summary := fundingSummary fi },
   { company_id := cid, etype := S "funding", date := fi.1.date,
     title := fundingTitle fi.1, title_hash := _title_hash hh (fundingTitle fi.1),
     summary := fundingSummary fi })

def fundingRowOf (hh : Str → Str) (cid sid url : Str) (exv : PyVal) (fi : FFields × Str) : EvRow :=
  { object_type := S "event",
    object_id := ObjId.eventId cid (S "funding") fi.1.date (_title_hash hh (fundingTitle fi.1)),
    field := S "funding.round",
    value := fi.1.round_type,
    source_id := sid,
    url := url,
    quote := fi.1.quote,
    confidence := fi.1.confidence,
    extractor_version := exv }

lemma persistFunding_decomp (hh : Str → Str) (cid sid url : Str) (exv : PyVal) :
    ∀ (items : List PyVal) (st : Store),
      persistFunding hh cid sid url exv items st =
        match itemsFieldsF items with
        | .error ex => .error ex
        | .ok fl =>
          .ok ({ people := st.people,
                 events := opsApply ekey (fl.map (fundingOpOf hh cid)) st.events,
                 evidence := st.evidence ++ fl.map (fundingRowOf hh cid sid url exv) },
               fl.length) := by
  intro items
  induction items with
  | nil =>
    intro st
    simp [persistFunding, itemsFieldsF, opsApply]
  | cons fr rest ih =>
    intro st
    simp only [persistFunding, itemsFieldsF]
    cases hf : getFundingFields fr with
    | error ex => rfl
    | ok f =>
      dsimp only
      by_cases hskip : f.round_type = [] ∨ f.quote = []
      · rw [if_pos hskip, ih st, if_pos hskip]
      · rw [if_neg hskip, if_neg hskip]
        cases hinv : pyJoinStrs (S ", ") f.investors with
        | error ex => rfl
        | ok inv =>
          dsimp only
          rw [ih]
          cases hrest : itemsFieldsF rest with
          | error ex => rfl
          | ok fl =>
            simp only [List.map_cons, opsApply,
              upsertEvents, fundingOpOf, fundingRowOf, fundingTitle, fundingSummary]
            simp [List.append_assoc]


/- Well-formedness of the three families of upsert operations, and a
whole-call decomposition of persist_accepted_extraction. -/

lemma goodOps_map {ρ κ α : Type} [DecidableEq κ] (key : ρ → κ) (g : α → (κ × (ρ → ρ) × ρ))
    (h : ∀ a, (∀ r, key ((g a).2.1 r) = key r) ∧ key ((g a).2.2) = (g a).1) (l : List α) :
    GoodOps key (l.map g) := by
  intro op hop
  obtain ⟨a, _, rfl⟩ := List.mem_map.mp hop
  exact h a

lemma goodOps_append {ρ κ : Type} (key : ρ → κ) (a b : List (κ × (ρ → ρ) × ρ))
    (ha : GoodOps key a) (hb : GoodOps key b) : GoodOps key (a ++ b) :=
  fun op hop => (List.mem_append.mp hop).elim (ha op) (hb op)

lemma goodOps_person (cid : Str) (fl : List PFields) :
    GoodOps pkey (fl.map (personOpOf cid)) :=
  goodOps_map pkey (personOpOf cid) (fun _ => ⟨fun _ => rfl, rfl⟩) fl

lemma goodOps_event (hh : Str → Str) (cid : Str) (fl : List EFields) :
    GoodOps ekey (fl.map (eventOpOf hh cid)) :=
  goodOps_map ekey (eventOpOf hh cid) (fun _ => ⟨fun _ => rfl, rfl⟩) fl

lemma goodOps_funding (hh : Str → Str) (cid : Str) (fl : List (FFields × Str)) :
    GoodOps ekey (fl.map (fundingOpOf hh cid)) :=
  goodOps_map ekey (fundingOpOf hh cid) (fun _ => ⟨fun _ => rfl, rfl⟩) fl

lemma persist_decomp (hh : Str → Str) (cid sid url : Str) (acc : VAccepted) (st : Store) :
    persist_accepted_extraction hh cid sid url acc st =
      match itemsFieldsP acc.people with
      | .error e => .error e
      | .ok pl =>
      match itemsFieldsE acc.events with
      | .error e => .error e
      | .ok el =>
      match itemsFieldsF acc.funding_rounds with
      | .error e => .error e
      | .ok fl =>
        .ok ({ people := opsApply pkey (pl.map (personOpOf cid)) st.people,
               events := opsApply ekey
                 (el.map (eventOpOf hh cid) ++ fl.map (fundingOpOf hh cid)) st.events,
               evidence := st.evidence
                 ++ pl.map (personRowOf cid sid url acc.extractor_version)
                 ++ el.map (eventRowOf hh cid sid url acc.extractor_version)
                 ++ fl.map (fundingRowOf hh cid sid url acc.extractor_version) },
             { people_upserted := pl.length, events_upserted := el.length,
               funding_upserted := fl.length,
               evidence_inserted := pl.length + el.length + fl.length }) := by
  simp only [persist_accepted_extraction]
  rw [persistPeople_decomp]
  cases itemsFieldsP acc.people with
  | error e => rfl
  | ok pl =>
    dsimp only
    rw [persistEvents_decomp]
    cases itemsFieldsE acc.events with
    | error e => rfl
    | ok el =>
      dsimp only
      rw [persistFunding_decomp]
      cases itemsFieldsF acc.funding_rounds with
      | error e => rfl
      | ok fl =>
        dsimp only
        rw [opsApply_append]


/-- C2: persisting the same accepted payload twice for the same company
leaves the entity tables (people; events, which also hold funding rounds)
at their first-run size — the second run only updates rows in place under
the keys (company_id, normalized_name) and (company_id, type, date,
title_hash) — while the evidence table grows on each run by exactly one
row per successfully upserted item (evidence_inserted =
people_upserted + events_upserted + funding_upserted). -/
theorem persist_upsert_idempotent (hh : Str → Str) (cid sid url : Str) (acc : VAccepted)
    (st st1 st2 : Store) (c1 c2 : PersistCounts)
    (h1 : persist_accepted_extraction hh cid sid url acc st = .ok (st1, c1))
    (h2 : persist_accepted_extraction hh cid sid url acc st1 = .ok (st2, c2)) :
    st2.people.length = st1.people.length ∧
    st2.events.length = st1.events.length ∧
    c2 = c1 ∧
    st1.evidence.length = st.evidence.length + c1.evidence_inserted ∧
    st2.evidence.length = st1.evidence.length + c2.evidence_inserted ∧
    c1.evidence_inserted = c1.people_upserted + c1.events_upserted + c1.funding_upserted := by
  rw [persist_decomp] at h1 h2
  cases hP : itemsFieldsP acc.people with
  | error e => rw [hP] at h1; exact Except.noConfusion h1
  | ok pl =>
  rw [hP] at h1 h2
  cases hE : itemsFieldsE acc.events with
  | error e => rw [hE] at h1; exact Except.noConfusion h1
  | ok el =>
  rw [hE] at h1 h2
  cases hF : itemsFieldsF acc.funding_rounds with
  | error e => rw [hF] at h1; exact Except.noConfusion h1
  | ok fl =>
  rw [hF] at h1 h2
  simp only [Except.ok.injEq, Prod.mk.injEq] at h1
  obtain ⟨hst1, hc1⟩ := h1
  subst hst1
  subst hc1
  simp only [Except.ok.injEq, Prod.mk.injEq] at h2
  obtain ⟨hst2, hc2⟩ := h2
  subst hst2
  subst hc2
  refine ⟨?_, ?_, rfl, ?_, ?_, rfl⟩
  · exact opsApply_stable_length pkey (pl.map (personOpOf cid)) (goodOps_person cid pl) _
      (fun op hop => opsApply_covers pkey _ (goodOps_person cid pl) st.people op hop)
  · have hg : GoodOps ekey (el.map (eventOpOf hh cid) ++ fl.map (fundingOpOf hh cid)) :=
      goodOps_append ekey _ _ (goodOps_event hh cid el) (goodOps_funding hh cid fl)
    exact opsApply_stable_length ekey _ hg _
      (fun op hop => opsApply_covers ekey _ hg st.events op hop)
  · simp [List.length_append]
    omega
  · simp [List.length_append]
    omega

def c2hh : Str → Str := fun s => s

def c2acc : VAccepted :=
  { extractor_version := .str (S "v1"),
    people := [.dict [(S "name", .str (S "Ada Science")),
                      (S "role", .str (S "CEO")),
                      (S "confidence", .str (S "0.9")),
                      (S "evidence_quote", .str (S "Ada Science is CEO"))]],
    events := [.dict [(S "type", .str (S "launch")),
                      (S "title", .str (S "Launch day")),
                      (S "summary", .str (S "Launched the product")),
                      (S "confidence", .str (S "0.8")),
                      (S "evidence_quote", .str (S "we launched"))]],
    funding_rounds := [.dict [(S "round_type", .str (S "seed")),
                              (S "amount", .int 5),
                              (S "currency", .str (S "USD")),
                              (S "investors", .list [.str (S "Fund A"), .str (S "Fund B")]),
                              (S "confidence", .str (S "0.7")),
                              (S "evidence_quote", .str (S "raised a seed"))]] }

def c2st0 : Store := { people := [], events := [], evidence := [] }

def c2exSt (r : Except Unit (Store × PersistCounts)) : Store :=
  match r with
  | .ok (st, _) => st
  | .error _ => c2st0

def c2exCnt (r : Except Unit (Store × PersistCounts)) : PersistCounts :=
  match r with
  | .ok (_, c) => c
  | .error _ => { people_upserted := 0, events_upserted := 0, funding_upserted := 0,
                  evidence_inserted := 0 }

def c2run1 : Except Unit (Store × PersistCounts) :=
  persist_accepted_extraction c2hh (S "co") (S "src") (S "http://u") c2acc c2st0

def c2st1 : Store := c2exSt c2run1

def c2c1 : PersistCounts := c2exCnt c2run1

def c2run2 : Except Unit (Store × PersistCounts) :=
  persist_accepted_extraction c2hh (S "co") (S "src") (S "http://u") c2acc c2st1

def c2st2 : Store := c2exSt c2run2

def c2c2 : PersistCounts := c2exCnt c2run2

theorem persist_upsert_idempotent_witness :
    c2st2.people.length = c2st1.people.length ∧
    c2st2.events.length = c2st1.events.length ∧
    c2c2 = c2c1 ∧
    c2st1.evidence.length = c2st0.evidence.length + c2c1.evidence_inserted ∧
    c2st2.evidence.length = c2st1.evidence.length + c2c2.evidence_inserted ∧
    c2c1.evidence_inserted = c2c1.people_upserted + c2c1.events_upserted +
      c2c1.funding_upserted :=
  persist_upsert_idempotent c2hh (S "co") (S "src") (S "http://u") c2acc
    c2st0 c2st1 c2st2 c2c1 c2c2 rfl rfl


set_option synthInstance.maxSize 512

/- ------------------------------------------------------------------
Change detector, from src/pipeline/diff.py.  The relational store is not
part of src/; its semantics are modelled from the spec: `MAX(detected_at)`
with epoch default (section 4.6), `ORDER BY created_at DESC LIMIT 1` for
the evidence url, and `INSERT ... ON CONFLICT DO NOTHING` on the changes
table treating two rows as identical when they agree on every inserted
column — `(company_id, change_type, object_type, object_id, source_url,
details)`; `detected_at` is assigned by the store at insert time
(parameter `t` below). Timestamps are naturals, the epoch is 0.
------------------------------------------------------------------ -/

/-- A row of the people table as read by the detector. -/
structure DPerson where
  person_id : Str
  company_id : Str
  role : Option Str
  created_at : Nat
  updated_at : Nat
deriving DecidableEq

/-- A row of the events table as read by the detector. -/
structure DEvent where
  event_id : Str
  company_id : Str
  created_at : Nat
deriving DecidableEq

/-- A row of the funding_rounds table as read by the detector. -/
structure DFunding where
  funding_round_id : Str
  company_id : Str
  created_at : Nat
deriving DecidableEq

/-- A row of the evidence table as read by the detector. -/
structure DEvid where
  object_type : Str
  object_id : Str
  url : Option Str
  created_at : Nat
deriving DecidableEq

/-- The details payload of an updated_role change:
`\x7b"field": "role", "from": ..., "to": ...\x7d` (the field key is
constant and omitted). -/
structure RoleDetail where
  fro : Option Str
  toV : Option Str
deriving DecidableEq

/-- A row of the changes table. -/
structure DChange where
  company_id : Str
  change_type : Str
  object_type : Str
  object_id : Str
  source_url : Option Str
  details : Option RoleDetail
  detected_at : Nat
deriving DecidableEq

/-- The store as seen by the change detector. -/
structure DiffDB where
  people : List DPerson
  events : List DEvent
  funding_rounds : List DFunding
  evidence : List DEvid
  changes : List DChange
deriving DecidableEq

/-- The stats dictionary returned by run_diff. -/
structure DiffStats where
  people : Nat
  events : Nat
  funding_rounds : Nat
  total : Nat
deriving DecidableEq

/-- `SELECT COALESCE(MAX(detected_at), epoch) FROM changes WHERE
company_id=cid` (diff.py line 67). -/
def watermark (chs : List DChange) (cid : Str) : Nat :=
  match chs with
  | [] => 0
  | c :: rest =>
    if c.company_id = cid then max c.detected_at (watermark rest cid)
    else watermark rest cid

/-- `_best_source_url_for_object` (diff.py lines 11-30): the most recent
(by created_at) non-null evidence url for the object. -/
def bestUrl (ev : List DEvid) (otype oid : Str) : Option Str :=
  let cand := ev.filter (fun e =>
    decide (e.object_type = otype) && decide (e.object_id = oid) && e.url.isSome)
  match cand.foldl (fun acc e =>
      match acc with
      | none => some e
      | some b => if e.created_at > b.created_at then some e else acc) none with
  | none => none
  | some e => e.url

/-- The columns supplied by `_insert_change`; `detected_at` is not among
them, so it does not take part in the duplicate check. -/
def changeKey (c : DChange) : Str × Str × Str × Str × Option Str × Option RoleDetail :=
  (c.company_id, c.change_type, c.object_type, c.object_id, c.source_url, c.details)

/-- `_insert_change` (diff.py lines 33-50): append unless an identical
row exists; report whether a row was written. -/
def _insert_change (chs : List DChange) (t : Nat) (cid ctype otype oid : Str)
    (url : Option Str) (det : Option RoleDetail) : List DChange × Bool :=
  let row : DChange :=
    { company_id := cid, change_type := ctype, object_type := otype, object_id := oid,
      source_url := url, details := det, detected_at := t }
  match chs.any (fun c => decide (changeKey c = changeKey row)) with
  | true => (chs, false)
  | false => (chs ++ [row], true)

/-- The new-person / new-event / new-funding loops (diff.py lines 81-84,
161-164, 189-192) share one shape: for each candidate id, look up the
best url, attempt the insert, and count the successful ones. -/
def newObjLoop (ev : List DEvid) (t : Nat) (cid ctype otype : Str) :
    List Str → List DChange → List DChange × Nat
  | [], chs => (chs, 0)
  | oid :: rest, chs =>
    let url := bestUrl ev otype oid
    let res := _insert_change chs t cid ctype otype oid url none
    let res2 := newObjLoop ev t cid ctype otype rest res.1
    (res2.1, (if res.2 then 1 else 0) + res2.2)

/-- `ORDER BY detected_at DESC LIMIT 1` over this person's updated_role
changes (diff.py lines 106-117). -/
def lastRoleChange (chs : List DChange) (cid pid : Str) : Option DChange :=
  let cand := chs.filter (fun c =>
    decide (c.company_id = cid) && decide (c.object_type = S "person") &&
    decide (c.object_id = pid) && decide (c.change_type = S "updated_role"))
  cand.foldl (fun acc c =>
    match acc with
    | none => some c
    | some b => if c.detected_at > b.detected_at then some c else acc) none

/-- The role-update loop of detect_people_changes (diff.py lines
104-136): with no recorded previous "to" value, record a baseline
change; otherwise record only when the role moved. -/
def rolesLoop (ev : List DEvid) (t : Nat) (cid : Str) :
    List (Str × Option Str) → List DChange → List DChange × Nat
  | [], chs => (chs, 0)
  | (pid, role) :: rest, chs =>
    let lt : Option Str :=
      match lastRoleChange chs cid pid with
      | none => none
      | some c =>
        match c.details with
        | none => none
        | some d => d.toV
    match lt with
    | none =>
      let url := bestUrl ev (S "person") pid
      let res := _insert_change chs t cid (S "updated_role") (S "person") pid url
        (some { fro := none, toV := role })
      let res2 := rolesLoop ev t cid rest res.1
      (res2.1, (if res.2 then 1 else 0) + res2.2)
    | some lastv =>
      if role.getD [] = lastv then
        rolesLoop ev t cid rest chs
      else
        let url := bestUrl ev (S "person") pid
        let res := _insert_change chs t cid (S "updated_role") (S "person") pid url
          (some { fro := some lastv, toV := role })
        let res2 := rolesLoop ev t cid rest res.1
        (res2.1, (if res.2 then 1 else 0) + res2.2)

/-- `detect_people_changes` (diff.py lines 55-138): one watermark read,
then the new-person pass and the role-update pass. -/
def detect_people_changes (db : DiffDB) (cid : Str) (t : Nat) : DiffDB × Nat :=
  let w := watermark db.changes cid
  let newCands := (db.people.filter (fun p =>
    decide (p.company_id = cid) && decide (p.created_at > w))).map (fun p => p.person_id)
  let r1 := newObjLoop db.evidence t cid (S "new_person") (S "person") newCands db.changes
  let updCands := (db.people.filter (fun p =>
    decide (p.company_id = cid) && decide (p.updated_at > w))).map (fun p => (p.person_id, p.role))
  let r2 := rolesLoop db.evidence t cid updCands r1.1
  ({ db with changes := r2.1 }, r1.2 + r2.2)

/-- `detect_event_changes` (diff.py lines 143-167). -/
def detect_event_changes (db : DiffDB) (cid : Str) (t : Nat) : DiffDB × Nat :=
  let w := watermark db.changes cid
  let cands := (db.events.filter (fun e =>
    decide (e.company_id = cid) && decide (e.created_at > w))).map (fun e => e.event_id)
  let r := newObjLoop db.evidence t cid (S "new_event") (S "event") cands db.changes
  ({ db with changes := r.1 }, r.2)

/-- `detect_funding_changes` (diff.py lines 172-196). -/
def detect_funding_changes (db : DiffDB) (cid : Str) (t : Nat) : DiffDB × Nat :=
  let w := watermark db.changes cid
  let cands := (db.funding_rounds.filter (fun f =>
    decide (f.company_id = cid) && decide (f.created_at > w))).map (fun f => f.funding_round_id)
  let r := newObjLoop db.evidence t cid (S "new_funding_round") (S "funding_round") cands db.changes
  ({ db with changes := r.1 }, r.2)

/-- `run_diff` (diff.py lines 199-215): the three passes in order, at one
detection time `t`. -/
def run_diff (db : DiffDB) (cid : Str) (t : Nat) : DiffDB × DiffStats :=
  let rp := detect_people_changes db cid t
  let re := detect_event_changes rp.1 cid t
  let rf := detect_funding_changes re.1 cid t
  (rf.1, { people := rp.2, events := re.2, funding_rounds := rf.2, total := rp.2 + re.2 + rf.2 })


/-- The row written by `_insert_change` at detection time `t`. -/
def newRow (t : Nat) (cid ctype otype oid : Str) (url : Option Str)
    (det : Option RoleDetail) : DChange :=
  { company_id := cid, change_type := ctype, object_type := otype, object_id := oid,
    source_url := url, details := det, detected_at := t }

/- The duplicate check of _insert_change ignores the detection time. -/
lemma insert_change_key (chs : List DChange) (t : Nat) (cid ctype otype oid : Str)
    (url : Option Str) (det : Option RoleDetail) :
    _insert_change chs t cid ctype otype oid url det =
      match chs.any (fun c => decide (changeKey c = (cid, ctype, otype, oid, url, det))) with
      | true => (chs, false)
      | false => (chs ++ [newRow t cid ctype otype oid url det], true) := rfl

lemma insert_change_coll (chs : List DChange) (t : Nat) (cid ctype otype oid : Str)
    (url : Option Str) (det : Option RoleDetail)
    (hb : chs.any (fun c => decide (changeKey c = (cid, ctype, otype, oid, url, det))) = true) :
    _insert_change chs t cid ctype otype oid url det = (chs, false) := by
  rw [insert_change_key, hb]

lemma insert_change_fresh (chs : List DChange) (t : Nat) (cid ctype otype oid : Str)
    (url : Option Str) (det : Option RoleDetail)
    (hb : chs.any (fun c => decide (changeKey c = (cid, ctype, otype, oid, url, det))) = false) :
    _insert_change chs t cid ctype otype oid url det =
      (chs ++ [newRow t cid ctype otype oid url det], true) := by
  rw [insert_change_key, hb]

lemma newObjLoop_spec (ev : List DEvid) (t : Nat) (cid ctype otype : Str) :
    ∀ (ids : List Str) (chs : List DChange),
      ∃ app, newObjLoop ev t cid ctype otype ids chs = (chs ++ app, app.length) ∧
        ∀ c ∈ app, c.company_id = cid ∧ c.detected_at = t := by
  intro ids
  induction ids with
  | nil =>
    intro chs
    exact ⟨[], by simp [newObjLoop], by simp⟩
  | cons oid rest ih =>
    intro chs
    simp only [newObjLoop]
    rcases Bool.eq_false_or_eq_true (chs.any (fun c =>
        decide (changeKey c = (cid, ctype, otype, oid, bestUrl ev otype oid, none)))) with
      hcoll | hcoll
    · rw [insert_change_coll chs t cid ctype otype oid (bestUrl ev otype oid) none hcoll]
      obtain ⟨app, happ, hprop⟩ := ih chs
      exact ⟨app, by simp [happ], hprop⟩

    · rw [insert_change_fresh chs t cid ctype otype oid (bestUrl ev otype oid) none hcoll]
      obtain ⟨app, happ, hprop⟩ :=
        ih (chs ++ [newRow t cid ctype otype oid (bestUrl ev otype oid) none])
      refine ⟨newRow t cid ctype otype oid (bestUrl ev otype oid) none :: app, ?_, ?_⟩
      · rw [happ]
        simp [List.append_assoc, Nat.add_comm]
      · intro c hc
        rcases List.mem_cons.mp hc with rfl | hmem
        · exact ⟨rfl, rfl⟩
        · exact hprop c hmem
lemma rolesLoop_spec (ev : List DEvid) (t : Nat) (cid : Str) :
    ∀ (cands : List (Str × Option Str)) (chs : List DChange),
      ∃ app, rolesLoop ev t cid cands chs = (chs ++ app, app.length) ∧
        ∀ c ∈ app, c.company_id = cid ∧ c.detected_at = t := by
  intro cands
  induction cands with
  | nil =>
    intro chs
    exact ⟨[], by simp [rolesLoop], by simp⟩
  | cons pr rest ih =>
    intro chs
    obtain ⟨pid, role⟩ := pr
    simp only [rolesLoop]
    cases hlt : (match lastRoleChange chs cid pid with
      | none => (none : Option Str)
      | some c =>
        match c.details with
        | none => none
        | some d => d.toV) with
    | none =>
      dsimp only
      rcases Bool.eq_false_or_eq_true (chs.any (fun c => decide (changeKey c =
          (cid, S "updated_role", S "person", pid, bestUrl ev (S "person") pid,
           some (RoleDetail.mk none role))))) with hcoll | hcoll
      · rw [insert_change_coll chs t cid (S "updated_role") (S "person") pid
          (bestUrl ev (S "person") pid) (some (RoleDetail.mk none role)) hcoll]
        obtain ⟨app, happ, hprop⟩ := ih chs
        exact ⟨app, by simp [happ], hprop⟩
      · rw [insert_change_fresh chs t cid (S "updated_role") (S "person") pid
          (bestUrl ev (S "person") pid) (some (RoleDetail.mk none role)) hcoll]
        obtain ⟨app, happ, hprop⟩ := ih (chs ++ [newRow t cid (S "updated_role") (S "person")
          pid (bestUrl ev (S "person") pid) (some (RoleDetail.mk none role))])
        refine ⟨newRow t cid (S "updated_role") (S "person") pid
          (bestUrl ev (S "person") pid) (some (RoleDetail.mk none role)) :: app, ?_, ?_⟩
        · rw [happ]
          simp [List.append_assoc, Nat.add_comm]
        · intro c hc
          rcases List.mem_cons.mp hc with rfl | hmem
          · exact ⟨rfl, rfl⟩
          · exact hprop c hmem
    | some lastv =>
      dsimp only
      by_cases heq : role.getD [] = lastv
      · rw [if_pos heq]
        exact ih chs
      · rw [if_neg heq]
        rcases Bool.eq_false_or_eq_true (chs.any (fun c => decide (changeKey c =
            (cid, S "updated_role", S "person", pid, bestUrl ev (S "person") pid,
             some (RoleDetail.mk (some lastv) role))))) with hcoll | hcoll
        · rw [insert_change_coll chs t cid (S "updated_role") (S "person") pid
            (bestUrl ev (S "person") pid) (some (RoleDetail.mk (some lastv) role)) hcoll]
          obtain ⟨app, happ, hprop⟩ := ih chs
          exact ⟨app, by simp [happ], hprop⟩

        · rw [insert_change_fresh chs t cid (S "updated_role") (S "person") pid
            (bestUrl ev (S "person") pid) (some (RoleDetail.mk (some lastv) role)) hcoll]
          obtain ⟨app, happ, hprop⟩ := ih (chs ++ [newRow t cid (S "updated_role")
            (S "person") pid (bestUrl ev (S "person") pid)
            (some (RoleDetail.mk (some lastv) role))])
          refine ⟨newRow t cid (S "updated_role") (S "person") pid
            (bestUrl ev (S "person") pid) (some (RoleDetail.mk (some lastv) role)) :: app,
            ?_, ?_⟩
          · rw [happ]
            simp [List.append_assoc, Nat.add_comm]
          · intro c hc
            rcases List.mem_cons.mp hc with rfl | hmem
            · exact ⟨rfl, rfl⟩
            · exact hprop c hmem


/- A pass that wrote nothing left the log unchanged, and rerunning it at
any other detection time writes nothing again: the duplicate check does
not involve detected_at. -/
lemma newObjLoop_noop (ev : List DEvid) (t1 : Nat) (cid ctype otype : Str) :
    ∀ (ids : List Str) (chs chs0 : List DChange),
      newObjLoop ev t1 cid ctype otype ids chs = (chs0, 0) →
        chs0 = chs ∧ ∀ t2, newObjLoop ev t2 cid ctype otype ids chs = (chs, 0) := by
  intro ids
  induction ids with
  | nil =>
    intro chs chs0 h
    simp only [newObjLoop, Prod.mk.injEq] at h
    exact ⟨h.1.symm, fun t2 => by simp [newObjLoop]⟩
  | cons oid rest ih =>
    intro chs chs0 h
    simp only [newObjLoop] at h
    rcases Bool.eq_false_or_eq_true (chs.any (fun c =>
        decide (changeKey c = (cid, ctype, otype, oid, bestUrl ev otype oid, none)))) with
      hcoll | hcoll
    · rw [insert_change_coll chs t1 cid ctype otype oid (bestUrl ev otype oid) none hcoll] at h
      simp only [Prod.mk.injEq] at h
      have h2 : (if false = true then 1 else 0) + (newObjLoop ev t1 cid ctype otype rest chs).2
          = 0 := h.2
      simp only [if_neg Bool.false_ne_true, Nat.zero_add] at h2
      have hpair : newObjLoop ev t1 cid ctype otype rest chs = (chs0, 0) := by
        rw [← h.1, ← h2]
      obtain ⟨hchs, hrep⟩ := ih chs chs0 hpair
      refine ⟨hchs, fun t2 => ?_⟩
      simp only [newObjLoop]
      rw [insert_change_coll chs t2 cid ctype otype oid (bestUrl ev otype oid) none hcoll]
      rw [hrep t2]
      simp
    · rw [insert_change_fresh chs t1 cid ctype otype oid (bestUrl ev otype oid) none hcoll] at h
      simp only [Prod.mk.injEq] at h
      have h2 : 1 + (newObjLoop ev t1 cid ctype otype rest
        (chs ++ [newRow t1 cid ctype otype oid (bestUrl ev otype oid) none])).2 = 0 := h.2
      omega

lemma rolesLoop_noop (ev : List DEvid) (t1 : Nat) (cid : Str) :
    ∀ (cands : List (Str × Option Str)) (chs chs0 : List DChange),
      rolesLoop ev t1 cid cands chs = (chs0, 0) →
        chs0 = chs ∧ ∀ t2, rolesLoop ev t2 cid cands chs = (chs, 0) := by
  intro cands
  induction cands with
  | nil =>
    intro chs chs0 h
    simp only [rolesLoop, Prod.mk.injEq] at h
    exact ⟨h.1.symm, fun t2 => by simp [rolesLoop]⟩
  | cons pr rest ih =>
    intro chs chs0 h
    obtain ⟨pid, role⟩ := pr
    simp only [rolesLoop] at h ⊢
    cases hlt : (match lastRoleChange chs cid pid with
      | none => (none : Option Str)
      | some c =>
        match c.details with
        | none => none
        | some d => d.toV) with
    | none =>
      rw [hlt] at h
      dsimp only at h
      rcases Bool.eq_false_or_eq_true (chs.any (fun c => decide (changeKey c =
          (cid, S "updated_role", S "person", pid, bestUrl ev (S "person") pid,
           some (RoleDetail.mk none role))))) with hcoll | hcoll
      · rw [insert_change_coll chs t1 cid (S "updated_role") (S "person") pid
          (bestUrl ev (S "person") pid) (some (RoleDetail.mk none role)) hcoll] at h
        simp only [Prod.mk.injEq] at h
        have h2 : (if false = true then 1 else 0) + (rolesLoop ev t1 cid rest chs).2 = 0 := h.2
        simp only [if_neg Bool.false_ne_true, Nat.zero_add] at h2
        have hpair : rolesLoop ev t1 cid rest chs = (chs0, 0) := by
          rw [← h.1, ← h2]
        obtain ⟨hchs, hrep⟩ := ih chs chs0 hpair
        refine ⟨hchs, fun t2 => ?_⟩
        dsimp only
        rw [insert_change_coll chs t2 cid (S "updated_role") (S "person") pid
          (bestUrl ev (S "person") pid) (some (RoleDetail.mk none role)) hcoll]
        rw [hrep t2]
        simp
      · rw [insert_change_fresh chs t1 cid (S "updated_role") (S "person") pid
          (bestUrl ev (S "person") pid) (some (RoleDetail.mk none role)) hcoll] at h
        simp only [Prod.mk.injEq] at h
        have h2 : 1 + (rolesLoop ev t1 cid rest (chs ++ [newRow t1 cid (S "updated_role")
          (S "person") pid (bestUrl ev (S "person") pid)
          (some (RoleDetail.mk none role))])).2 = 0 := h.2
        omega
    | some lastv =>
      rw [hlt] at h
      dsimp only at h
      by_cases heq : role.getD [] = lastv
      · rw [if_pos heq] at h
        obtain ⟨hchs, hrep⟩ := ih chs chs0 h
        refine ⟨hchs, fun t2 => ?_⟩
        dsimp only
        rw [if_pos heq]
        exact hrep t2
      · rw [if_neg heq] at h
        rcases Bool.eq_false_or_eq_true (chs.any (fun c => decide (changeKey c =
            (cid, S "updated_role", S "person", pid, bestUrl ev (S "person") pid,
             some (RoleDetail.mk (some lastv) role))))) with hcoll | hcoll
        · rw [insert_change_coll chs t1 cid (S "updated_role") (S "person") pid
            (bestUrl ev (S "person") pid) (some (RoleDetail.mk (some lastv) role)) hcoll] at h
          simp only [Prod.mk.injEq] at h
          have h2 : (if false = true then 1 else 0) + (rolesLoop ev t1 cid rest chs).2 = 0 :=
            h.2
          simp only [if_neg Bool.false_ne_true, Nat.zero_add] at h2
          have hpair : rolesLoop ev t1 cid rest chs = (chs0, 0) := by
            rw [← h.1, ← h2]
          obtain ⟨hchs, hrep⟩ := ih chs chs0 hpair
          refine ⟨hchs, fun t2 => ?_⟩
          dsimp only
          rw [if_neg heq]
          rw [insert_change_coll chs t2 cid (S "updated_role") (S "person") pid
            (bestUrl ev (S "person") pid) (some (RoleDetail.mk (some lastv) role)) hcoll]
          rw [hrep t2]
          simp
        · rw [insert_change_fresh chs t1 cid (S "updated_role") (S "person") pid
            (bestUrl ev (S "person") pid) (some (RoleDetail.mk (some lastv) role)) hcoll] at h
          simp only [Prod.mk.injEq] at h
          have h2 : 1 + (rolesLoop ev t1 cid rest (chs ++ [newRow t1 cid (S "updated_role")
            (S "person") pid (bestUrl ev (S "person") pid)
            (some (RoleDetail.mk (some lastv) role))])).2 = 0 := h.2
          omega

/- Every change row of this company bounds the watermark from below. -/
lemma watermark_ge (cid : Str) :
    ∀ (chs : List DChange) (c : DChange), c ∈ chs → c.company_id = cid →
      c.detected_at ≤ watermark chs cid := by
  intro chs
  induction chs with
  | nil =>
    intro c hc
    exact absurd hc (List.not_mem_nil _)
  | cons d rest ih =>
    intro c hc hcid
    rcases List.mem_cons.mp hc with rfl | hmem
    · simp only [watermark, if_pos hcid]
      exact le_max_left _ _
    · simp only [watermark]
      by_cases hd : d.company_id = cid
      · rw [if_pos hd]
        exact le_trans (ih c hmem hcid) (le_max_right _ _)
      · rw [if_neg hd]
        exact ih c hmem hcid


/-- Replace the changes table, keeping the entity tables. -/
def withChanges (db : DiffDB) (x : List DChange) : DiffDB :=
  { db with changes := x }

lemma withChanges_changes (db : DiffDB) (x : List DChange) :
    (withChanges db x).changes = x := rfl

lemma withChanges_people (db : DiffDB) (x : List DChange) :
    (withChanges db x).people = db.people := rfl

lemma withChanges_events (db : DiffDB) (x : List DChange) :
    (withChanges db x).events = db.events := rfl

lemma withChanges_funding (db : DiffDB) (x : List DChange) :
    (withChanges db x).funding_rounds = db.funding_rounds := rfl

lemma withChanges_evidence (db : DiffDB) (x : List DChange) :
    (withChanges db x).evidence = db.evidence := rfl

lemma withChanges_idem (db : DiffDB) (x y : List DChange) :
    withChanges (withChanges db x) y = withChanges db y := rfl

lemma withChanges_self (db : DiffDB) : withChanges db db.changes = db := rfl

/- Each detection pass only appends to the changes table, returns the
number of appended rows, and stamps every appended row with this company
and this detection time. -/
lemma detect_people_spec (db : DiffDB) (cid : Str) (t : Nat) :
    ∃ app, detect_people_changes db cid t =
        (withChanges db (db.changes ++ app), app.length) ∧
      ∀ c ∈ app, c.company_id = cid ∧ c.detected_at = t := by
  obtain ⟨app1, h1, hp1⟩ := newObjLoop_spec db.evidence t cid (S "new_person") (S "person")
    ((db.people.filter (fun p => decide (p.company_id = cid) &&
      decide (p.created_at > watermark db.changes cid))).map (fun p => p.person_id)) db.changes
  obtain ⟨app2, h2, hp2⟩ := rolesLoop_spec db.evidence t cid
    ((db.people.filter (fun p => decide (p.company_id = cid) &&
      decide (p.updated_at > watermark db.changes cid))).map (fun p => (p.person_id, p.role)))
    (db.changes ++ app1)
  refine ⟨app1 ++ app2, ?_, ?_⟩
  · simp only [detect_people_changes]
    rw [h1]
    dsimp only
    rw [h2]
    simp only [withChanges, List.append_assoc, Prod.mk.injEq, List.length_append]
  · intro c hc
    rcases List.mem_append.mp hc with h | h
    · exact hp1 c h
    · exact hp2 c h

lemma detect_event_spec (db : DiffDB) (cid : Str) (t : Nat) :
    ∃ app, detect_event_changes db cid t =
        (withChanges db (db.changes ++ app), app.length) ∧
      ∀ c ∈ app, c.company_id = cid ∧ c.detected_at = t := by
  obtain ⟨app, h, hp⟩ := newObjLoop_spec db.evidence t cid (S "new_event") (S "event")
    ((db.events.filter (fun e => decide (e.company_id = cid) &&
      decide (e.created_at > watermark db.changes cid))).map (fun e => e.event_id)) db.changes
  refine ⟨app, ?_, hp⟩
  simp only [detect_event_changes]
  rw [h]
  rfl

lemma detect_funding_spec (db : DiffDB) (cid : Str) (t : Nat) :
    ∃ app, detect_funding_changes db cid t =
        (withChanges db (db.changes ++ app), app.length) ∧
      ∀ c ∈ app, c.company_id = cid ∧ c.detected_at = t := by
  obtain ⟨app, h, hp⟩ := newObjLoop_spec db.evidence t cid (S "new_funding_round")
    (S "funding_round")
    ((db.funding_rounds.filter (fun f => decide (f.company_id = cid) &&
      decide (f.created_at > watermark db.changes cid))).map (fun f => f.funding_round_id))
    db.changes
  refine ⟨app, ?_, hp⟩
  simp only [detect_funding_changes]
  rw [h]
  rfl

/- run_diff only appends to the changes table; the total equals the
number of appended rows, all stamped (cid, t). -/
lemma run_diff_spec (db : DiffDB) (cid : Str) (t : Nat) :
    ∃ app s, run_diff db cid t = (withChanges db (db.changes ++ app), s) ∧
      s.total = app.length ∧ ∀ c ∈ app, c.company_id = cid ∧ c.detected_at = t := by
  obtain ⟨a1, h1, hp1⟩ := detect_people_spec db cid t
  obtain ⟨a2, h2, hp2⟩ := detect_event_spec (withChanges db (db.changes ++ a1)) cid t
  obtain ⟨a3, h3, hp3⟩ := detect_funding_spec
    (withChanges db (db.changes ++ a1 ++ a2)) cid t
  simp only [withChanges_idem, withChanges_changes] at h2 h3
  refine ⟨a1 ++ a2 ++ a3,
    { people := a1.length, events := a2.length, funding_rounds := a3.length,
      total := a1.length + a2.length + a3.length }, ?_, ?_, ?_⟩
  · simp only [run_diff]
    rw [h1]
    dsimp only
    rw [h2]
    dsimp only
    rw [h3]
    simp only [withChanges, List.append_assoc, Prod.mk.injEq]
  · simp only [List.length_append]
    try omega
  · intro c hc
    rcases List.mem_append.mp hc with h | h
    · rcases List.mem_append.mp h with h9 | h9
      · exact hp1 c h9
      · exact hp2 c h9
    · exact hp3 c h


/- When every entity timestamp of this company is at or below the
watermark, a detection pass has no candidates and does nothing. -/
lemma detect_people_noop (db : DiffDB) (cid : Str) (t : Nat)
    (hp : ∀ p ∈ db.people, p.company_id = cid →
      p.created_at ≤ watermark db.changes cid ∧ p.updated_at ≤ watermark db.changes cid) :
    detect_people_changes db cid t = (db, 0) := by
  have hf1 : db.people.filter (fun p => decide (p.company_id = cid) &&
      decide (p.created_at > watermark db.changes cid)) = [] := by
    rw [List.filter_eq_nil_iff]
    intro p hpmem
    simp only [Bool.and_eq_true, decide_eq_true_eq, not_and]
    intro hcid
    exact Nat.not_lt.mpr (hp p hpmem hcid).1
  have hf2 : db.people.filter (fun p => decide (p.company_id = cid) &&
      decide (p.updated_at > watermark db.changes cid)) = [] := by
    rw [List.filter_eq_nil_iff]
    intro p hpmem
    simp only [Bool.and_eq_true, decide_eq_true_eq, not_and]
    intro hcid
    exact Nat.not_lt.mpr (hp p hpmem hcid).2
  simp only [detect_people_changes, hf1, hf2]
  rfl

lemma detect_event_noop (db : DiffDB) (cid : Str) (t : Nat)
    (he : ∀ e ∈ db.events, e.company_id = cid →
      e.created_at ≤ watermark db.changes cid) :
    detect_event_changes db cid t = (db, 0) := by
  have hf : db.events.filter (fun e => decide (e.company_id = cid) &&
      decide (e.created_at > watermark db.changes cid)) = [] := by
    rw [List.filter_eq_nil_iff]
    intro e hmem
    simp only [Bool.and_eq_true, decide_eq_true_eq, not_and]
    intro hcid
    exact Nat.not_lt.mpr (he e hmem hcid)
  simp only [detect_event_changes, hf]
  rfl

lemma detect_funding_noop (db : DiffDB) (cid : Str) (t : Nat)
    (hf : ∀ f ∈ db.funding_rounds, f.company_id = cid →
      f.created_at ≤ watermark db.changes cid) :
    detect_funding_changes db cid t = (db, 0) := by
  have hff : db.funding_rounds.filter (fun f => decide (f.company_id = cid) &&
      decide (f.created_at > watermark db.changes cid)) = [] := by
    rw [List.filter_eq_nil_iff]
    intro f hmem
    simp only [Bool.and_eq_true, decide_eq_true_eq, not_and]
    intro hcid
    exact Nat.not_lt.mpr (hf f hmem hcid)
  simp only [detect_funding_changes, hff]
  rfl

/- A pass that wrote nothing left the store unchanged and replays as a
no-op at any detection time. -/
lemma detect_people_replay (db : DiffDB) (cid : Str) (t1 : Nat) (db0 : DiffDB)
    (h : detect_people_changes db cid t1 = (db0, 0)) :
    db0 = db ∧ ∀ t2, detect_people_changes db cid t2 = (db, 0) := by
  obtain ⟨a1, hN, hp1⟩ := newObjLoop_spec db.evidence t1 cid (S "new_person") (S "person")
    ((db.people.filter (fun p => decide (p.company_id = cid) &&
      decide (p.created_at > watermark db.changes cid))).map (fun p => p.person_id)) db.changes
  obtain ⟨a2, hR, hp2⟩ := rolesLoop_spec db.evidence t1 cid
    ((db.people.filter (fun p => decide (p.company_id = cid) &&
      decide (p.updated_at > watermark db.changes cid))).map (fun p => (p.person_id, p.role)))
    (db.changes ++ a1)
  have hd : detect_people_changes db cid t1 =
      ({ db with changes := db.changes ++ a1 ++ a2 }, a1.length + a2.length) := by
    simp only [detect_people_changes]
    rw [hN]
    dsimp only
    rw [hR]
  rw [hd] at h
  simp only [Prod.mk.injEq] at h
  have ha1 : a1 = [] := List.eq_nil_of_length_eq_zero (by omega)
  have ha2 : a2 = [] := List.eq_nil_of_length_eq_zero (by omega)
  subst ha1
  subst ha2
  simp only [List.append_nil] at hN hR h
  obtain ⟨hx1, hrep1⟩ := newObjLoop_noop db.evidence t1 cid (S "new_person") (S "person")
    _ db.changes db.changes hN
  obtain ⟨hx2, hrep2⟩ := rolesLoop_noop db.evidence t1 cid _ db.changes db.changes hR
  constructor
  · rw [← h.1]
  · intro t2
    simp only [detect_people_changes]
    rw [hrep1 t2]
    dsimp only
    rw [hrep2 t2]
    exact rfl

lemma detect_event_replay (db : DiffDB) (cid : Str) (t1 : Nat) (db0 : DiffDB)
    (h : detect_event_changes db cid t1 = (db0, 0)) :
    db0 = db ∧ ∀ t2, detect_event_changes db cid t2 = (db, 0) := by
  obtain ⟨a, hN, hp⟩ := newObjLoop_spec db.evidence t1 cid (S "new_event") (S "event")
    ((db.events.filter (fun e => decide (e.company_id = cid) &&
      decide (e.created_at > watermark db.changes cid))).map (fun e => e.event_id)) db.changes
  have hd : detect_event_changes db cid t1 =
      ({ db with changes := db.changes ++ a }, a.length) := by
    simp only [detect_event_changes]
    rw [hN]
  rw [hd] at h
  simp only [Prod.mk.injEq] at h
  have ha : a = [] := List.eq_nil_of_length_eq_zero (by omega)
  subst ha
  simp only [List.append_nil] at hN h
  obtain ⟨hx, hrep⟩ := newObjLoop_noop db.evidence t1 cid (S "new_event") (S "event")
    _ db.changes db.changes hN
  constructor
  · rw [← h.1]
  · intro t2
    simp only [detect_event_changes]
    rw [hrep t2]

lemma detect_funding_replay (db : DiffDB) (cid : Str) (t1 : Nat) (db0 : DiffDB)
    (h : detect_funding_changes db cid t1 = (db0, 0)) :
    db0 = db ∧ ∀ t2, detect_funding_changes db cid t2 = (db, 0) := by
  obtain ⟨a, hN, hp⟩ := newObjLoop_spec db.evidence t1 cid (S "new_funding_round")
    (S "funding_round")
    ((db.funding_rounds.filter (fun f => decide (f.company_id = cid) &&
      decide (f.created_at > watermark db.changes cid))).map (fun f => f.funding_round_id))
    db.changes
  have hd : detect_funding_changes db cid t1 =
      ({ db with changes := db.changes ++ a }, a.length) := by
    simp only [detect_funding_changes]
    rw [hN]
  rw [hd] at h
  simp only [Prod.mk.injEq] at h
  have ha : a = [] := List.eq_nil_of_length_eq_zero (by omega)
  subst ha
  simp only [List.append_nil] at hN h
  obtain ⟨hx, hrep⟩ := newObjLoop_noop db.evidence t1 cid (S "new_funding_round")
    (S "funding_round") _ db.changes db.changes hN
  constructor
  · rw [← h.1]
  · intro t2
    simp only [detect_funding_changes]
    rw [hrep t2]


lemma run_diff_noop (db : DiffDB) (cid : Str) (t : Nat)
    (hp : ∀ p ∈ db.people, p.company_id = cid →
      p.created_at ≤ watermark db.changes cid ∧ p.updated_at ≤ watermark db.changes cid)
    (he : ∀ e ∈ db.events, e.company_id = cid → e.created_at ≤ watermark db.changes cid)
    (hf : ∀ f ∈ db.funding_rounds, f.company_id = cid →
      f.created_at ≤ watermark db.changes cid) :
    run_diff db cid t =
      (db, { people := 0, events := 0, funding_rounds := 0, total := 0 }) := by
  simp only [run_diff]
  rw [detect_people_noop db cid t hp]
  dsimp only
  rw [detect_event_noop db cid t he]
  dsimp only
  rw [detect_funding_noop db cid t hf]
  exact rfl

lemma run_diff_replay (db db0 : DiffDB) (cid : Str) (t1 : Nat) (s : DiffStats)
    (h : run_diff db cid t1 = (db0, s)) (h0 : s.total = 0) :
    db0 = db ∧ s = { people := 0, events := 0, funding_rounds := 0, total := 0 } ∧
      ∀ t2, run_diff db cid t2 =
        (db, { people := 0, events := 0, funding_rounds := 0, total := 0 }) := by
  simp only [run_diff, Prod.mk.injEq] at h
  obtain ⟨hdb, hs⟩ := h
  subst hs
  have hsum : (detect_people_changes db cid t1).2 +
      (detect_event_changes (detect_people_changes db cid t1).1 cid t1).2 +
      (detect_funding_changes
        (detect_event_changes (detect_people_changes db cid t1).1 cid t1).1 cid t1).2 = 0 :=
    h0
  have hp0 : (detect_people_changes db cid t1).2 = 0 := by omega
  have e1 : detect_people_changes db cid t1 = ((detect_people_changes db cid t1).1, 0) := by
    rw [← hp0]
  obtain ⟨e1db, rep1⟩ := detect_people_replay db cid t1 _ e1
  rw [e1db] at hdb hsum
  have he0 : (detect_event_changes db cid t1).2 = 0 := by omega
  have e2 : detect_event_changes db cid t1 = ((detect_event_changes db cid t1).1, 0) := by
    rw [← he0]
  obtain ⟨e2db, rep2⟩ := detect_event_replay db cid t1 _ e2
  rw [e2db] at hdb hsum
  have hf0 : (detect_funding_changes db cid t1).2 = 0 := by omega
  have e3 : detect_funding_changes db cid t1 = ((detect_funding_changes db cid t1).1, 0) := by
    rw [← hf0]
  obtain ⟨e3db, rep3⟩ := detect_funding_replay db cid t1 _ e3
  rw [e3db] at hdb
  refine ⟨hdb.symm, ?_, ?_⟩
  · simp only [DiffStats.mk.injEq]
    refine ⟨hp0, ?_, ?_, ?_⟩
    · rw [e1db]
      exact he0
    · rw [e1db, e2db]
      exact hf0
    · rw [e1db, e2db]
      omega
  · intro t2
    simp only [run_diff]
    rw [rep1 t2]
    dsimp only
    rw [rep2 t2]
    dsimp only
    rw [rep3 t2]
    exact rfl

/-- C3: running the change detector twice in a row for the same company,
with no person/event/funding row written between the runs (all entity
timestamps are at or below the first run's detection time), yields zero
changes on the second run and leaves the store untouched: either the
first run recorded at least one change — advancing the watermark past
every entity timestamp, so the second run has no candidates — or it
recorded none, and the second run replays the same duplicate-safe
inserts, all of which are no-ops again. -/
theorem run_diff_second_noop (db db1 db2 : DiffDB) (cid : Str) (t1 t2 : Nat)
    (s1 s2 : DiffStats)
    (h1 : run_diff db cid t1 = (db1, s1))
    (h2 : run_diff db1 cid t2 = (db2, s2))
    (hp : ∀ p ∈ db.people, p.company_id = cid → p.created_at ≤ t1 ∧ p.updated_at ≤ t1)
    (he : ∀ e ∈ db.events, e.company_id = cid → e.created_at ≤ t1)
    (hf : ∀ f ∈ db.funding_rounds, f.company_id = cid → f.created_at ≤ t1) :
    s2.total = 0 ∧ db2 = db1 := by
  obtain ⟨app, s, hrun, htot, hprops⟩ := run_diff_spec db cid t1
  rw [h1] at hrun
  simp only [Prod.mk.injEq] at hrun
  obtain ⟨hdb1, hs1⟩ := hrun
  cases app with
  | nil =>
    have hdb1d : db1 = db := by
      rw [hdb1, List.append_nil]
      exact withChanges_self db
    have hs1t : s1.total = 0 := by
      rw [hs1, htot]
      rfl
    obtain ⟨hdbeq, hszero, hrep⟩ := run_diff_replay db db1 cid t1 s1 h1 hs1t
    rw [hdb1d] at h2
    have hcmp := (hrep t2).symm.trans h2
    simp only [Prod.mk.injEq] at hcmp
    constructor
    · rw [← hcmp.2]
    · rw [← hcmp.1, hdb1d]
  | cons c capp =>
    have hcmem : c ∈ db1.changes := by
      rw [hdb1]
      simp [withChanges]
    have hcprop := hprops c (List.mem_cons_self c capp)
    have hw : t1 ≤ watermark db1.changes cid := by
      have hg := watermark_ge cid db1.changes c hcmem hcprop.1
      rw [hcprop.2] at hg
      exact hg
    have hpeq : db1.people = db.people := by
      rw [hdb1]
      rfl
    have heeq : db1.events = db.events := by
      rw [hdb1]
      rfl
    have hfeq : db1.funding_rounds = db.funding_rounds := by
      rw [hdb1]
      rfl
    have hnoop := run_diff_noop db1 cid t2
      (fun p hm hc => by
        rw [hpeq] at hm
        have hb := hp p hm hc
        exact ⟨le_trans hb.1 hw, le_trans hb.2 hw⟩)
      (fun e hm hc => by
        rw [heeq] at hm
        exact le_trans (he e hm hc) hw)
      (fun f hm hc => by
        rw [hfeq] at hm
        exact le_trans (hf f hm hc) hw)
    have hcmp := hnoop.symm.trans h2
    simp only [Prod.mk.injEq] at hcmp
    constructor
    · rw [← hcmp.2]
    · exact hcmp.1.symm

def c3db : DiffDB :=
  { people := [{ person_id := S "p1", company_id := S "c1", role := some (S "CEO"),
                 created_at := 5, updated_at := 6 }],
    events := [{ event_id := S "e1", company_id := S "c1", created_at := 5 }],
    funding_rounds := [{ funding_round_id := S "f1", company_id := S "c1",
                         created_at := 5 }],
    evidence := [{ object_type := S "person", object_id := S "p1",
                   url := some (S "http://u"), created_at := 3 }],
    changes := [] }

def c3r1 : DiffDB × DiffStats := run_diff c3db (S "c1") 10

def c3db1 : DiffDB := c3r1.1

def c3s1 : DiffStats := c3r1.2

def c3r2 : DiffDB × DiffStats := run_diff c3db1 (S "c1") 20

def c3db2 : DiffDB := c3r2.1

def c3s2 : DiffStats := c3r2.2

theorem run_diff_second_noop_witness :
    c3s2.total = 0 ∧ c3db2 = c3db1 :=
  run_diff_second_noop c3db c3db1 c3db2 (S "c1") 10 20 c3s1 c3s2 rfl rfl
    (by decide) (by decide) (by decide)

end Scout
